import Mathlib

/-!
Verification of the MetalMan batch-export scripts.

The repository consists of four Blender Python scripts:
  MetalMan/Scripts/export_animations_to_usdz.py   (player variant)
  MetalMan/Scripts/export_enemy_animations.py     (enemy variant)
  MetalMan/Scripts/export_vendor_animations.py    (vendor variant)
  Scripts/export_animation.py                     (JSON keyframe sampler)

This file gives a shallow embedding of the host-independent logic of those
scripts (filename sanitisation, root-motion stripping, frame sampling,
batch accounting, scene purging, JSON document assembly) and proves the
specified properties about it.  Calls into the Blender object model
(`bpy.*`, pose evaluation, file I/O) are modelled as explicit data or as
effect traces, as the spec declares the host an opaque collaborator.
-/

namespace Metalman

/-! ## Python strings

Python strings are sequences of Unicode code points; we model them as lists
of naturals.  The regex character classes of the scripts are used on ASCII
data; we model the ASCII fragment of Python's default (Unicode) classes, and
every theorem about the sanitiser carries an ASCII hypothesis marking the
domain on which the model is faithful. -/

abbrev PyStr := List Nat

/-- Code points of a Lean string literal, used to write concrete inputs. -/
def codes (s : String) : PyStr := s.data.map Char.toNat

/-- Inverse of `codes` on valid data; used only to rebuild path strings. -/
def decodeCodes (l : PyStr) : String := String.mk (l.map Char.ofNat)

/-- ASCII fragment of the regex class `\s` (Python: space, TAB, LF, CR, VT, FF). -/
def isSpaceA (n : Nat) : Bool := n == 32 || n == 9 || n == 10 || n == 13 || n == 11 || n == 12

/-- ASCII fragment of the regex class `\d`. -/
def isDigitA (n : Nat) : Bool := 48 ≤ n && n ≤ 57

/-- ASCII uppercase letters. -/
def isUpperA (n : Nat) : Bool := 65 ≤ n && n ≤ 90

/-- ASCII lowercase letters. -/
def isLowerA (n : Nat) : Bool := 97 ≤ n && n ≤ 122

/-- ASCII alphanumeric characters. -/
def isAlnumA (n : Nat) : Bool := isDigitA n || isUpperA n || isLowerA n

/-- ASCII fragment of the regex class `\w` (alphanumerics and underscore 95). -/
def isWordA (n : Nat) : Bool := isAlnumA n || n == 95

/-- Model of `str.lower()` on ASCII: uppercase letters gain 32, others are fixed. -/
def toLowerA (n : Nat) : Nat := if isUpperA n then n + 32 else n

/-! ## Filename sanitiser (`clean_filename`, both variants)

Pipeline from the source:
  1. `os.path.splitext(name)[0]`
  2. `re.sub(r'\s*\((\d+)\)', r'-\1', name)`
  3. `re.sub(r'[^\w\s\-]', '', name)`
  4. `name.replace(' ', '-')`   (vendor variant additionally `replace('_', '-')`)
  5. `name.lower()`
  6. `re.sub(r'-+', '-', name)`
  7. `name.strip('-')`
Code points used below: 32 space, 40 `(`, 41 `)`, 45 `-`, 46 `.`, 47 `/`, 95 `_`. -/

/-- Model of POSIX `os.path.splitext(name)[0]`: cut at the last dot of the
final path component, unless every character of that component before the
dot is itself a dot (CPython `genericpath._splitext`). -/
def splitextStem (s : PyStr) : PyStr :=
  let baseRev := s.reverse.takeWhile (fun c => !(c == 47))
  let dirRev := s.reverse.dropWhile (fun c => !(c == 47))
  let base := baseRev.reverse
  let dots := base.takeWhile (fun c => c == 46)
  let core := base.dropWhile (fun c => c == 46)
  if 46 ∈ core then
    dirRev.reverse ++ dots ++ ((core.reverse.dropWhile (fun c => !(c == 46))).tail).reverse
  else s

/-- Attempted match of the regex `\s*\((\d+)\)` at the head of the string.
Since whitespace, `(` and digits are disjoint classes, the greedy match is
deterministic: maximal whitespace run, `(`, a nonempty maximal digit run,
`)`.  On success returns the digit group and the remainder. -/
def matchParen (s : PyStr) : Option (PyStr × PyStr) :=
  match s.dropWhile isSpaceA with
  | 40 :: r2 =>
    match r2.dropWhile isDigitA with
    | 41 :: r4 => if r2.takeWhile isDigitA = [] then none else some (r2.takeWhile isDigitA, r4)
    | _ => none
  | _ => none

/-- Left-to-right nonoverlapping substitution of `\s*\((\d+)\)` by `-\1`
(`re.sub` semantics).  The fuel argument bounds the scan; it is always
called with the length of the string, which suffices because each step
consumes at least one character. -/
def subParenF : Nat → PyStr → PyStr
  | 0, s => s
  | _, [] => []
  | fuel + 1, c :: cs =>
    match matchParen (c :: cs) with
    | some (ds, rest) => 45 :: (ds ++ subParenF fuel rest)
    | none => c :: subParenF fuel cs

/-- Model of `re.sub(r'\s*\((\d+)\)', r'-\1', s)`. -/
def subParen (s : PyStr) : PyStr := subParenF s.length s

/-- Characters kept by `re.sub(r'[^\w\s\-]', '', s)`. -/
def keepChar (n : Nat) : Bool := isWordA n || isSpaceA n || n == 45

/-- Model of `str.replace(a, b)` for single characters. -/
def replaceChar (a b : Nat) (s : PyStr) : PyStr := s.map (fun c => if c == a then b else c)

/-- Model of `re.sub(r'-+', '-', s)`: a run of dashes collapses to one dash,
realised by dropping any dash that is immediately followed by a dash. -/
def collapseDashes : PyStr → PyStr
  | [] => []
  | [c] => [c]
  | c :: d :: r =>
    if c == 45 && d == 45 then collapseDashes (d :: r) else c :: collapseDashes (d :: r)

/-- Model of `str.strip('-')`: remove every leading and trailing dash. -/
def stripDashes (s : PyStr) : PyStr :=
  ((s.dropWhile (fun c => c == 45)).reverse.dropWhile (fun c => c == 45)).reverse

/-- Model of `clean_filename` from `export_animations_to_usdz.py` and
`export_enemy_animations.py` (spaces to dashes; underscores kept). -/
def clean_filename (name : PyStr) : PyStr :=
  let n1 := splitextStem name
  let n2 := subParen n1
  let n3 := n2.filter keepChar
  let n4 := replaceChar 32 45 n3
  let n5 := n4.map toLowerA
  let n6 := collapseDashes n5
  stripDashes n6

/-- Model of `clean_filename` from `export_vendor_animations.py` (spaces and
underscores to dashes). -/
def clean_filename_vendor (name : PyStr) : PyStr :=
  let n1 := splitextStem name
  let n2 := subParen n1
  let n3 := n2.filter keepChar
  let n4 := replaceChar 32 45 n3
  let n4b := replaceChar 95 45 n4
  let n5 := n4b.map toLowerA
  let n6 := collapseDashes n5
  stripDashes n6

/-! ## Predicates used to state the sanitiser properties -/

/-- The character class `[a-z0-9-]` from the spec. -/
def slugChar (n : Nat) : Bool := isLowerA n || isDigitA n || n == 45

/-- Whitespace other than the space character (passed through untouched by
both variants, since only `' '` is rewritten to a dash). -/
def nonSpaceWhite (n : Nat) : Bool := isSpaceA n && !(n == 32)

/-- Characters that can occur in vendor-variant output. -/
def outCharVendor (n : Nat) : Bool := slugChar n || nonSpaceWhite n

/-- Characters that can occur in player/enemy-variant output (underscores
survive there). -/
def outCharPlayer (n : Nat) : Bool := outCharVendor n || n == 95

/-- No two consecutive dashes. -/
def noDoubleDash : PyStr → Bool
  | [] => true
  | [_] => true
  | c :: d :: r => !(c == 45 && d == 45) && noDoubleDash (d :: r)

/-- Adjacency relation underlying `noDoubleDash`: not both characters dashes. -/
def DashRel (a b : Nat) : Prop := ¬(a = 45 ∧ b = 45)

/-- Neither the first nor the last character is a dash. -/
def noEdgeDash (s : PyStr) : Bool := !(s.head? == some 45) && !(s.getLast? == some 45)

/-- All-ASCII inputs: the domain on which the model of the Python regex
classes is faithful. -/
def AsciiStr (s : PyStr) : Prop := ∀ c ∈ s, c < 128

/-! ## Root-motion stripping (`strip_root_motion_from_action`)

An action owns a list of f-curves; an f-curve has a data path, an array
index and a list of keyframe points.  A keyframe point carries `co` (frame,
value) and the two tangent handles; the script mutates only the value
component (`[1]`) of `co`, `handle_left` and `handle_right`, so the model
records each of the six components. -/

structure KeyPoint where
  coFrame : ℚ
  coValue : ℚ
  hlFrame : ℚ
  hlValue : ℚ
  hrFrame : ℚ
  hrValue : ℚ
deriving DecidableEq

structure FCurve where
  data_path : String
  array_index : Nat
  keyframe_points : List KeyPoint
deriving DecidableEq

/-- Substring test on character lists (Python `needle in hay`). -/
def containsSub (needle : List Char) : List Char → Bool
  | [] => needle.isPrefixOf []
  | c :: t => needle.isPrefixOf (c :: t) || containsSub needle t

/-- Python `needle in hay` for strings. -/
def strIn (needle hay : String) : Bool := containsSub needle.data hay.data

/-- The selection test of the loop over `action.fcurves`: the root-bone name
and the word `location` occur in the curve's data path, and the curve has
the given array index (0 for X, 2 for Z). -/
def matchChan (root : String) (ai : Nat) (fc : FCurve) : Bool :=
  strIn root fc.data_path && strIn ("location") fc.data_path && fc.array_index == ai

/-- Position of the last f-curve satisfying `p`: the Python loop overwrites
`x_curve`/`z_curve` on every hit, so the final value is the last match.
List positions model object identity. -/
def lastMatchPos (p : FCurve → Bool) : List FCurve → Option Nat
  | [] => none
  | fc :: rest =>
    match lastMatchPos p rest with
    | some j => some (j + 1)
    | none => if p fc then some 0 else none

/-- Overwrite the value and both handle values of every keyframe point with
the given value. -/
def freezeKP (v : ℚ) (kp : KeyPoint) : KeyPoint :=
  { kp with coValue := v, hlValue := v, hrValue := v }

/-- Body of the per-curve mutation: if the curve has keyframe points, every
point's value and handle values become the first point's value. -/
def stripCurve (fc : FCurve) : FCurve :=
  match fc.keyframe_points with
  | [] => fc
  | kp0 :: _ => { fc with keyframe_points := fc.keyframe_points.map (freezeKP kp0.coValue) }

/-- Apply `stripCurve` to the curve at the given position, if any. -/
def stripChannelAt (a : List FCurve) : Option Nat → List FCurve
  | none => a
  | some i =>
    match a[i]? with
    | none => a
    | some fc => a.set i (stripCurve fc)

/-- Model of `strip_root_motion_from_action` (identical in the player and
enemy scripts): locate the last matching X channel (array index 0) and the
last matching Z channel (array index 2), then freeze each to its first
keyframe value. -/
def strip_root_motion_from_action (a : List FCurve) (root : String) : List FCurve :=
  let ix := lastMatchPos (matchChan root 0) a
  let iz := lastMatchPos (matchChan root 2) a
  stripChannelAt (stripChannelAt a ix) iz

/-! ## Frame sampling (`export_animation`, lines 103-112)

`sampled_frames = list(range(frame_start, frame_end + 1, sample_step))`,
then the final frame is appended when the stride skipped it.  Reading
`sampled_frames[-1]` raises IndexError on an empty range, so the model
returns an `Option`. -/

/-- Model of Python `range(a, b, step)` for a positive step.  The fuel is
`(b - a).toNat`, which bounds the number of elements produced. -/
def pyRangeAux : Nat → Int → Int → Int → List Int
  | 0, _, _, _ => []
  | fuel + 1, a, b, step => if a < b then a :: pyRangeAux fuel (a + step) b step else []

/-- Python `range(a, b, step)` for `step > 0`. -/
def pyRange (a b step : Int) : List Int := pyRangeAux (b - a).toNat a b step

/-- Sampling stride: every frame, or every other frame above 300 frames. -/
def sample_step (frame_start frame_end : Int) : Int :=
  if 300 < frame_end - frame_start + 1 then 2 else 1

/-- Model of the sampled-frame list: `range(frame_start, frame_end + 1, step)`
with the final frame appended when the stride skipped it; `none` models the
IndexError the source raises on an empty range. -/
def sampled_frames (frame_start frame_end : Int) : Option (List Int) :=
  let base := pyRange frame_start (frame_end + 1) (sample_step frame_start frame_end)
  match base.getLast? with
  | none => none
  | some x => if x == frame_end then some base else some (base ++ [frame_end])

/-- The closed integer interval `[frame_start, frame_end]` as a list. -/
def intRange (frame_start frame_end : Int) : List Int :=
  (List.range (frame_end + 1 - frame_start).toNat).map (fun i : Nat => frame_start + (i : Int))

/-! ## Batch accounting (`main` of the vendor and player scripts)

Per-item processing is opaque host work; only its outcome matters to the
claim.  A vendor item yields `True`/`False`/`None` or raises; a player item
yields `True`/`False` or raises. -/

/-- Outcome of one `process_vendor_fbx` call as observed by `main`. -/
inductive VOutcome where
  | ret (v : Option Bool)
  | exc
deriving DecidableEq

/-- Outcome of one `process_animation` call as observed by `main`. -/
inductive UOutcome where
  | ret (b : Bool)
  | exc
deriving DecidableEq

/-- Counter update of the vendor loop body:
`if result is True: success elif result is None: skip else: fail`,
and the `except` arm counts a failure. -/
def vendorStep (c : Nat × Nat × Nat) (r : VOutcome) : Nat × Nat × Nat :=
  match r with
  | .ret (some true) => (c.1 + 1, c.2.1, c.2.2)
  | .ret none => (c.1, c.2.1 + 1, c.2.2)
  | .ret (some false) => (c.1, c.2.1, c.2.2 + 1)
  | .exc => (c.1, c.2.1, c.2.2 + 1)

/-- Final (success, skip, fail) counters of the vendor `main` loop. -/
def vendor_tally (rs : List VOutcome) : Nat × Nat × Nat := rs.foldl vendorStep (0, 0, 0)

/-- Counter update of the player loop body:
`if process_animation(...): success else: fail`, `except` counts a failure. -/
def playerStep (c : Nat × Nat) (r : UOutcome) : Nat × Nat :=
  match r with
  | .ret true => (c.1 + 1, c.2)
  | .ret false => (c.1, c.2 + 1)
  | .exc => (c.1, c.2 + 1)

/-- Final (success, fail) counters of the player `main` loop. -/
def player_tally (rs : List UOutcome) : Nat × Nat := rs.foldl playerStep (0, 0)

/-! ## The JSON keyframe sampler (`Scripts/export_animation.py`)

The scene model records what the script reads from the host: the object
list, the render fps, the file path of the open document, and the current
frame (mutated by `frame_set`).  Pose evaluation (`get_bone_transform`,
lines 23-33) is host work — `pose_bone.matrix` is produced by Blender's
depsgraph after `frame_set` — so each bone carries its evaluated local
transform as a function of the frame; `matrix_to_list` is modelled
faithfully on such matrices. -/

/-- A 4x4 matrix as read from the host, indexed `m row col`. -/
abbrev M4 := Nat → Nat → ℚ

/-- Model of `matrix_to_list`: flatten column-major, 16 numbers.  Mirrors
`for col in range(4): for row in range(4): result.append(matrix[row][col])`. -/
def matrix_to_list (m : M4) : List ℚ :=
  (List.range 4).flatMap (fun col => (List.range 4).map (fun row => m row col))

/-- Model of `str.replace(':', '_')` (single-character replacement). -/
def colonToUnder (s : String) : String :=
  String.mk (s.data.map (fun c => if c == ':' then '_' else c))

/-- An animation clip as read by the sampler: name and float frame range. -/
structure BAct where
  name : String
  frameRangeLo : ℚ
  frameRangeHi : ℚ
deriving DecidableEq

/-- Python `int()` on a rational: truncation toward zero. -/
def pyint (q : ℚ) : Int := Int.tdiv q.num q.den

/-- A pose bone: name, parent name (none for a root bone) and the
host-evaluated local transform per frame (see the section comment). -/
structure PoseBone where
  name : String
  parentName : Option String
  localMatrix : Int → M4

/-- A scene object: name, type string, optional animation data (which in
turn optionally holds the active action), and pose bones (armatures). -/
structure BObj where
  name : String
  otype : String
  animData : Option (Option BAct)
  poseBones : List PoseBone

/-- The scene state read and mutated by `export_animation`. -/
structure BScene where
  objects : List BObj
  fps : ℚ
  filepath : Option String
  frame_current : Int

/-- One row of the `bones` table of the emitted document. -/
structure BoneInfo where
  name : String
  index : Nat
  parentIndex : Int
deriving DecidableEq

/-- One row of the `keyframes` list of the emitted document. -/
structure KeyframeRec where
  time : ℚ
  boneTransforms : List (List ℚ)
deriving DecidableEq

/-- The emitted JSON document. -/
structure AnimDoc where
  name : String
  duration : ℚ
  fps : ℚ
  boneCount : Nat
  keyframeCount : Nat
  bones : List BoneInfo
  keyframes : List KeyframeRec
deriving DecidableEq

/-- Python `bone_name_to_index.get(name, -1)`: last binding wins. -/
def lookupIdx (dict : List (String × Nat)) (pn : Option String) : Int :=
  match pn with
  | none => -1
  | some n =>
    match dict.reverse.find? (fun e => e.1 == n) with
    | some e => (e.2 : Int)
    | none => -1

/-- The bone-table loop: enumerate bones, look the parent up in the mapping
built so far, rewrite `:` to `_` in the emitted name, then record the bone's
own index. -/
def build_bones_aux : List PoseBone → List (String × Nat) → Nat → List BoneInfo
  | [], _, _ => []
  | b :: rest, dict, idx =>
    { name := colonToUnder b.name, index := idx, parentIndex := lookupIdx dict b.parentName } ::
      build_bones_aux rest (dict ++ [(b.name, idx)]) (idx + 1)

/-- The `bones_info` table of `export_animation`. -/
def build_bones (bs : List PoseBone) : List BoneInfo := build_bones_aux bs [] 0

/-- Armature lookup: `bpy.data.objects.get(name)` when a name is given,
otherwise the first object of type ARMATURE in the scene. -/
def find_armature (scene : BScene) (armature_name : Option String) : Option BObj :=
  match armature_name with
  | some n => scene.objects.find? (fun o => o.name == n)
  | none => scene.objects.find? (fun o => o.otype == ("ARMATURE"))

/-- The active action of an object: `animation_data` may be absent, and may
hold no action. -/
def activeAction (o : BObj) : Option BAct :=
  match o.animData with
  | none => none
  | some a => a

/-- Stem of a path (`os.path.splitext(path)[0]`), for the output path. -/
def splitextStemStr (s : String) : String :=
  decodeCodes (splitextStem (codes s))

/-- Model of `export_animation(armature_name, output_path)`.  Returns the
written document and its path (or `none` on the early error returns and on
the empty-range IndexError) together with the final scene state;
`frame_set` mutates `frame_current` once per sampled frame, so the final
scene carries the last sampled frame. -/
def export_animation (scene : BScene) (armature_name output_path : Option String) :
    Option (AnimDoc × String) × BScene :=
  match find_armature scene armature_name with
  | none => (none, scene)
  | some arm =>
    match activeAction arm with
    | none => (none, scene)
    | some act =>
      let frame_start := pyint act.frameRangeLo
      let frame_end := pyint act.frameRangeHi
      let fps := scene.fps
      let bones_info := build_bones arm.poseBones
      match sampled_frames frame_start frame_end with
      | none => (none, scene)
      | some frames =>
        let keyframes := frames.map (fun f =>
          { time := ((f : ℚ) - (frame_start : ℚ)) / fps,
            boneTransforms := arm.poseBones.map (fun b => matrix_to_list (b.localMatrix f)) })
        let duration := ((frame_end : ℚ) - (frame_start : ℚ)) / fps
        let doc : AnimDoc :=
          { name := colonToUnder act.name, duration := duration, fps := fps,
            boneCount := bones_info.length, keyframeCount := keyframes.length,
            bones := bones_info, keyframes := keyframes }
        let path :=
          match output_path with
          | some p => p
          | none =>
            match scene.filepath with
            | some bp => splitextStemStr bp ++ ("_animation.json")
            | none => ("/tmp/") ++ act.name ++ ("_animation.json")
        let lastFrame :=
          match frames.getLast? with
          | some lf => lf
          | none => scene.frame_current
        (some (doc, path), { scene with frame_current := lastFrame })

/-! ## Vendor per-item processing (`process_vendor_fbx`)

Host work after the skip check (scene reset, import, frame-range setup,
export) is recorded as an effect trace; the post-import scene contents and
the export outcome are supplied by an opaque host model. -/

/-- Observable host effects of one `process_vendor_fbx` call. -/
inductive VendorEff where
  | clearScene
  | clearActions
  | importFbx (p : String)
  | applyAction (name : String)
  | setFrameRange (a b : Int)
  | exportUsdz (p : String)
deriving DecidableEq

/-- What the host presents after importing the FBX, plus the export outcome. -/
structure VendorHost where
  hasArmature : Bool
  armAction : Option BAct
  dataActions : List BAct
  exportOk : Bool
deriving DecidableEq

/-- Model of POSIX `os.path.basename`. -/
def basenameStr (p : String) : String :=
  String.mk ((p.data.reverse.takeWhile (fun c => !(c == '/'))).reverse)

/-- Model of POSIX `os.path.join` for two components. -/
def pathJoin (a b : String) : String :=
  if b.data.head? == some '/' then b
  else if a == ("") then b
  else if a.data.getLast? == some '/' then a ++ b
  else a ++ ("/") ++ b

/-- Sanitised output path of a vendor item. -/
def vendorOutputPath (fbx_file output_dir : String) : String :=
  pathJoin output_dir
    (decodeCodes (clean_filename_vendor (codes (basenameStr fbx_file))) ++ (".usdz"))

/-- Model of `process_vendor_fbx(fbx_file, output_dir, skip_existing)`:
returns the Python result (`True`/`False`/`None`) and the effect trace.
The skip check runs before any host mutation; afterwards the scene is
cleared, the file imported, the frame range set from the armature's action
(or from the first action in `bpy.data.actions` as a fallback), and the
export attempted. -/
def process_vendor_fbx (fbx_file output_dir : String) (skipExisting : Bool)
    (existing : List String) (host : VendorHost) : Option Bool × List VendorEff :=
  let output_path := vendorOutputPath fbx_file output_dir
  if skipExisting && existing.contains output_path then (none, [])
  else
    let pre := [VendorEff.clearScene, VendorEff.clearActions, VendorEff.importFbx fbx_file]
    let mid :=
      match host.hasArmature, host.armAction with
      | true, some a =>
        [VendorEff.setFrameRange (pyint a.frameRangeLo) (pyint a.frameRangeHi)]
      | _, _ =>
        match host.dataActions with
        | [] => []
        | a :: _ =>
          if host.hasArmature then
            [VendorEff.applyAction a.name,
             VendorEff.setFrameRange (pyint a.frameRangeLo) (pyint a.frameRangeHi)]
          else []
    let res := if host.exportOk then some true else some false
    (res, pre ++ mid ++ [VendorEff.exportUsdz output_path])

/-! ## Scene reset (`clear_scene`, identical in all three batch scripts)

The script deletes every scene object, then makes one pass over each of six
data-block collections (meshes, armatures, materials, textures, images,
actions, in that order), removing every block whose user count is zero at
the moment it is inspected.  Blocks and the host's reference graph are
modelled explicitly; a block's user count is the number of reference edges
into it from live blocks.  The `other` kind stands for holders the script
never purges (scenes, collections, node trees, fake users). -/

inductive BKind where
  | object
  | mesh
  | armature
  | material
  | texture
  | image
  | action
  | other
deriving DecidableEq

/-- Position of each kind in the purge order; `object` and `other` are never
purged (objects are deleted up front, `other` holders are untouched). -/
def kindLevel : BKind → Nat
  | .object => 0
  | .other => 0
  | .mesh => 1
  | .armature => 2
  | .material => 3
  | .texture => 4
  | .image => 5
  | .action => 6

/-- The six collections the script purges. -/
def tracked : BKind → Bool
  | .mesh => true
  | .armature => true
  | .material => true
  | .texture => true
  | .image => true
  | .action => true
  | _ => false

structure DataBlock where
  id : Nat
  kind : BKind
deriving DecidableEq

/-- Live blocks plus the (static) reference-edge list `(holder, held)`. -/
structure BlendData where
  blocks : List DataBlock
  refs : List (Nat × Nat)
deriving DecidableEq

/-- Whether a block id is live. -/
def aliveB (d : BlendData) (i : Nat) : Bool := d.blocks.any (fun b => b.id == i)

/-- Model of `block.users`: reference edges into `i` from live holders. -/
def users (d : BlendData) (i : Nat) : Nat :=
  (d.refs.filter (fun e => e.2 == i && aliveB d e.1)).length

/-- Model of `bpy.data.<kind>.remove(block)`. -/
def removeBlock (d : BlendData) (i : Nat) : BlendData :=
  { d with blocks := d.blocks.filter (fun b => !(b.id == i)) }

/-- One iteration of a purge loop: `if block.users == 0: remove(block)`. -/
def purgeStep (d : BlendData) (b : DataBlock) : BlendData :=
  if users d b.id == 0 then removeBlock d b.id else d

/-- One purge loop over the snapshot of a collection. -/
def purgeKind (d : BlendData) (k : BKind) : BlendData :=
  (d.blocks.filter (fun b => b.kind == k)).foldl purgeStep d

/-- Model of `select_all` + `delete`: every scene object is removed. -/
def delete_all_objects (d : BlendData) : BlendData :=
  { d with blocks := d.blocks.filter (fun b => !(b.kind == BKind.object)) }

/-- Model of `clear_scene`: delete all objects, then purge the six
collections in source order. -/
def clear_scene (d : BlendData) : BlendData :=
  purgeKind (purgeKind (purgeKind (purgeKind (purgeKind (purgeKind
    (delete_all_objects d) BKind.mesh) BKind.armature) BKind.material)
    BKind.texture) BKind.image) BKind.action

/-- Block ids are unique (Blender data-block identity). -/
def NodupIds (d : BlendData) : Prop := (d.blocks.map DataBlock.id).Nodup

/-- Stratified reference graph: holders live strictly earlier in the purge
order than what they hold (objects hold meshes/armatures/actions, meshes
hold materials, materials hold textures/images, textures hold images,
anything animated holds actions; nothing holds in the other direction). -/
def Strat (d : BlendData) : Prop :=
  ∀ e ∈ d.refs, ∀ a ∈ d.blocks, ∀ b ∈ d.blocks,
    a.id = e.1 → b.id = e.2 → kindLevel a.kind < kindLevel b.kind

/-! ## Concrete data used by witnesses -/

/-- Concrete action used by the witness of claim C1: one X-location curve of
the root bone with two keyframes. -/
def demoAction : List FCurve :=
  [{ data_path := "pose.bones[\"mixamorig:Hips\"].location", array_index := 0,
     keyframe_points :=
      [{ coFrame := 0, coValue := 1, hlFrame := 0, hlValue := 1, hrFrame := 0, hrValue := 1 },
       { coFrame := 1, coValue := 5, hlFrame := 1, hlValue := 4, hrFrame := 1, hrValue := 6 }] }]

/-- Scene with no armature, used by the witness of claim C7. -/
def sceneNoArm : BScene := { objects := [], fps := 24, filepath := none, frame_current := 1 }

/-- A root pose bone with a constant evaluated transform, for the witness of
claim C10. -/
def demoBone : PoseBone :=
  { name := "mixamorig:Hips", parentName := none, localMatrix := fun _ => fun _ _ => 0 }

/-- An armature carrying a three-frame action, for the witness of claim C10. -/
def demoArm : BObj :=
  { name := "Armature", otype := "ARMATURE",
    animData := some (some { name := "Idle", frameRangeLo := 0, frameRangeHi := 2 }),
    poseBones := [demoBone] }

/-- Scene holding `demoArm`, for the witness of claim C10. -/
def demoScene : BScene :=
  { objects := [demoArm], fps := 24, filepath := none, frame_current := 0 }

/-- The run of the sampler on `demoScene`, for the witness of claim C10. -/
def demoRun : Option (AnimDoc × String) × BScene := export_animation demoScene none none

/-- Dummy document used as the default when destructuring `demoRun`. -/
def emptyDoc : AnimDoc :=
  { name := "", duration := 0, fps := 0, boneCount := 0,
    keyframeCount := 0, bones := [], keyframes := [] }

/-- The document produced by the sampler on `demoScene`. -/
def demoDoc : AnimDoc := (demoRun.1.getD (emptyDoc, "")).1

/-- The path the sampler writes for `demoScene`. -/
def demoPath : String := (demoRun.1.getD (emptyDoc, "")).2

/-- Concrete data-block state for the witness of claim C6: an object holding
two meshes, one mesh holding a material, and an untracked holder (for
example a collection) keeping one mesh alive; purging cascades through the
object's meshes into the material. -/
def demoBlend : BlendData :=
  { blocks := [{ id := 0, kind := BKind.object }, { id := 1, kind := BKind.mesh },
      { id := 2, kind := BKind.material }, { id := 3, kind := BKind.mesh },
      { id := 10, kind := BKind.other }],
    refs := [(0, 1), (0, 3), (1, 2), (10, 3)] }

/-! ## Helper lemmas about the sanitiser stages -/

/-! ## Helper lemmas about the sanitiser stages -/

theorem subParenF_zero (s : PyStr) : subParenF 0 s = s := by cases s <;> rfl

theorem collapseDashes_sublist (s : PyStr) : List.Sublist (collapseDashes s) s := by
  induction s with
  | nil => simp [collapseDashes]
  | cons c t ih =>
    cases t with
    | nil => simp [collapseDashes]
    | cons d r =>
      simp only [collapseDashes]
      split
      · exact ih.trans (List.sublist_cons_self c (d :: r))
      · exact ih.cons₂ c

theorem stripDashes_sublist (s : PyStr) : List.Sublist (stripDashes s) s := by
  unfold stripDashes
  have h1 : List.Sublist (s.dropWhile (fun c => c == 45)) s := List.dropWhile_sublist _
  have h2 : List.Sublist ((s.dropWhile (fun c => c == 45)).reverse.dropWhile (fun c => c == 45))
      (s.dropWhile (fun c => c == 45)).reverse := List.dropWhile_sublist _
  have h3 := h2.reverse
  rw [List.reverse_reverse] at h3
  exact h3.trans h1

theorem mem_splitextStem (s : PyStr) : ∀ c ∈ splitextStem s, c ∈ s := by
  intro c hc
  simp only [splitextStem] at hc
  split at hc
  · have hbase : List.Sublist (s.reverse.takeWhile (fun c => !(c == 47))).reverse s := by
      have := (List.takeWhile_sublist (l := s.reverse) (fun c => !(c == 47))).reverse
      rwa [List.reverse_reverse] at this
    have hcore : List.Sublist ((s.reverse.takeWhile (fun c => !(c == 47))).reverse.dropWhile
        (fun c => c == 46)) s := (List.dropWhile_sublist _).trans hbase
    rcases List.mem_append.1 hc with hc1 | hc2
    · rcases List.mem_append.1 hc1 with hd | ht
      · have hdir : List.Sublist (s.reverse.dropWhile (fun c => !(c == 47))).reverse s := by
          have := (List.dropWhile_sublist (l := s.reverse) (fun c => !(c == 47))).reverse
          rwa [List.reverse_reverse] at this
        exact hdir.mem hd
      · exact ((List.takeWhile_sublist _).trans hbase).mem ht
    · have ha : List.Sublist ((((s.reverse.takeWhile (fun c => !(c == 47))).reverse.dropWhile
          (fun c => c == 46)).reverse.dropWhile (fun c => !(c == 46))).tail)
          ((s.reverse.takeWhile (fun c => !(c == 47))).reverse.dropWhile
          (fun c => c == 46)).reverse :=
        (List.tail_sublist _).trans (List.dropWhile_sublist _)
      have hb := ha.reverse
      rw [List.reverse_reverse] at hb
      exact (hb.trans hcore).mem hc2
  · exact hc

theorem matchParen_mem {s ds rest : PyStr} (h : matchParen s = some (ds, rest)) :
    (∀ c ∈ ds, c ∈ s) ∧ (∀ c ∈ rest, c ∈ s) ∧ 40 ∈ s ∧ rest.length < s.length := by
  unfold matchParen at h
  split at h
  case h_1 r2 heq =>
    split at h
    case h_1 r4 heq2 =>
      split at h
      · exact absurd h (by simp)
      · have hpair := Option.some.inj h
        have hds : ds = r2.takeWhile isDigitA := (congrArg Prod.fst hpair).symm
        have hrest : rest = r4 := (congrArg Prod.snd hpair).symm
        have hr2 : List.Sublist (40 :: r2) s := by
          rw [← heq]; exact List.dropWhile_sublist _
        have hr2s : List.Sublist r2 s := (List.sublist_cons_self 40 r2).trans hr2
        have hr3 : List.Sublist (41 :: r4) r2 := by
          rw [← heq2]; exact List.dropWhile_sublist _
        have hr4 : List.Sublist r4 s := ((List.sublist_cons_self 41 r4).trans hr3).trans hr2s
        rw [hds, hrest]
        refine ⟨fun c hc => ((List.takeWhile_sublist _).trans hr2s).mem hc,
                fun c hc => hr4.mem hc, hr2.mem (List.mem_cons_self 40 r2), ?_⟩
        have l2 : (41 :: r4).length ≤ r2.length := hr3.length_le
        have l3 : (40 :: r2).length ≤ s.length := hr2.length_le
        simp only [List.length_cons] at l2 l3
        omega
    case h_2 => exact absurd h (by simp)
  case h_2 => exact absurd h (by simp)

theorem mem_subParenF (fuel : Nat) : ∀ (s : PyStr), ∀ c ∈ subParenF fuel s, c ∈ s ∨ c = 45 := by
  induction fuel with
  | zero =>
    intro s c hc
    rw [subParenF_zero] at hc
    exact Or.inl hc
  | succ fuel ih =>
    intro s c hc
    match s with
    | [] => exact Or.inl hc
    | x :: xs =>
      rw [subParenF] at hc
      split at hc
      case h_1 ds rest heq =>
        rcases matchParen_mem heq with ⟨hds, hrest, _, _⟩
        rcases List.mem_cons.1 hc with h45 | hc'
        · exact Or.inr h45
        · rcases List.mem_append.1 hc' with hd | hrec
          · exact Or.inl (hds c hd)
          · rcases ih rest c hrec with h | h
            · exact Or.inl (hrest c h)
            · exact Or.inr h
      case h_2 =>
        rcases List.mem_cons.1 hc with h | hc'
        · exact Or.inl (h ▸ List.mem_cons_self x xs)
        · rcases ih xs c hc' with h | h
          · exact Or.inl (List.mem_cons_of_mem x h)
          · exact Or.inr h

theorem mem_replaceChar (a b : Nat) (s : PyStr) :
    ∀ c ∈ replaceChar a b s, c = b ∨ (c ∈ s ∧ ¬ c = a) := by
  intro c hc
  unfold replaceChar at hc
  rcases List.mem_map.1 hc with ⟨c', hc', he⟩
  by_cases hca : c' = a
  · subst hca; simp at he; exact Or.inl he.symm
  · have : c' = c := by simpa [hca] using he
    subst this; exact Or.inr ⟨hc', hca⟩

theorem toLowerA_out (c : Nat) (h1 : keepChar c = true) (h2 : ¬ c = 32) :
    outCharPlayer (toLowerA c) = true := by
  simp only [keepChar, isWordA, isAlnumA, isDigitA, isUpperA, isLowerA, isSpaceA,
    Bool.or_eq_true, Bool.and_eq_true, decide_eq_true_eq, beq_iff_eq] at h1
  simp only [outCharPlayer, outCharVendor, slugChar, nonSpaceWhite, toLowerA, isUpperA,
    isLowerA, isDigitA, isSpaceA, Bool.or_eq_true, Bool.and_eq_true,
    Bool.not_eq_true', decide_eq_true_eq, beq_iff_eq, beq_eq_false_iff_ne, ne_eq]
  split <;> omega

theorem toLowerA_out_vendor (c : Nat) (h1 : keepChar c = true) (h2 : ¬ c = 32)
    (h3 : ¬ c = 95) : outCharVendor (toLowerA c) = true := by
  simp only [keepChar, isWordA, isAlnumA, isDigitA, isUpperA, isLowerA, isSpaceA,
    Bool.or_eq_true, Bool.and_eq_true, decide_eq_true_eq, beq_iff_eq] at h1
  simp only [outCharVendor, slugChar, nonSpaceWhite, toLowerA, isUpperA,
    isLowerA, isDigitA, isSpaceA, Bool.or_eq_true, Bool.and_eq_true,
    Bool.not_eq_true', decide_eq_true_eq, beq_iff_eq, beq_eq_false_iff_ne, ne_eq]
  split <;> omega

/-! ## Dash structure and fixpoint lemmas for the sanitiser -/

theorem DashRel_symm {a b : Nat} (h : DashRel a b) : DashRel b a := by
  unfold DashRel at *; tauto

theorem noDoubleDash_iff_chain (s : PyStr) :
    noDoubleDash s = true ↔ List.Chain' DashRel s := by
  induction s with
  | nil => simp [noDoubleDash, List.chain'_nil]
  | cons c t ih =>
    cases t with
    | nil => simp [noDoubleDash, List.chain'_singleton]
    | cons d r =>
      rw [noDoubleDash, List.chain'_cons]
      rw [Bool.and_eq_true, ← ih]
      constructor
      · rintro ⟨h1, h2⟩
        refine ⟨?_, h2⟩
        unfold DashRel
        simp only [Bool.not_eq_true', Bool.and_eq_false_iff, beq_eq_false_iff_ne, ne_eq] at h1
        tauto
      · rintro ⟨h1, h2⟩
        refine ⟨?_, h2⟩
        unfold DashRel at h1
        simp only [Bool.not_eq_true', Bool.and_eq_false_iff, beq_eq_false_iff_ne, ne_eq]
        tauto

theorem collapseDashes_head (r : PyStr) :
    ∀ c, (collapseDashes (c :: r)).head? = some c := by
  induction r with
  | nil => intro c; rfl
  | cons d r' ih =>
    intro c
    rw [collapseDashes]
    split
    case isTrue h =>
      simp only [Bool.and_eq_true, beq_iff_eq] at h
      rw [ih d, h.1, h.2]
    case isFalse h => rfl

theorem collapseDashes_chain (s : PyStr) : List.Chain' DashRel (collapseDashes s) := by
  cases s with
  | nil => exact List.chain'_nil
  | cons c r =>
    induction r generalizing c with
    | nil => exact List.chain'_singleton c
    | cons d r' ih =>
      rw [collapseDashes]
      split
      case isTrue h => exact ih d
      case isFalse h =>
      rw [List.chain'_cons']
      refine ⟨?_, ih d⟩
      intro y hy
      rw [collapseDashes_head r' d] at hy
      simp only [Option.mem_def, Option.some.injEq] at hy
      subst hy
      unfold DashRel
      simp only [Bool.and_eq_true, beq_iff_eq, not_and] at h
      tauto

theorem stripDashes_chain {s : PyStr} (h : List.Chain' DashRel s) :
    List.Chain' DashRel (stripDashes s) := by
  unfold stripDashes
  have h1 : List.Chain' DashRel (s.dropWhile (fun c => c == 45)) :=
    h.suffix (List.dropWhile_suffix _)
  have h2 : List.Chain' DashRel (s.dropWhile (fun c => c == 45)).reverse := by
    rw [List.chain'_reverse]
    exact h1.imp (fun a b hab => DashRel_symm hab)
  have h3 := h2.suffix (List.dropWhile_suffix (fun c => c == 45))
  rw [List.chain'_reverse]
  exact h3.imp (fun a b hab => DashRel_symm hab)

theorem stripDashes_noEdge (s : PyStr) : noEdgeDash (stripDashes s) = true := by
  have hhead : ∀ (l : PyStr), ¬ (l.dropWhile (fun c => c == 45)).head? = some 45 := by
    intro l hl
    have := List.head?_dropWhile_not (fun c => c == 45) l
    rw [hl] at this
    simp at this
  unfold noEdgeDash stripDashes
  simp only [Bool.and_eq_true, Bool.not_eq_true', beq_eq_false_iff_ne, ne_eq]
  constructor
  · -- the first character is not a dash
    intro hl
    rw [List.head?_reverse] at hl
    rcases List.dropWhile_suffix (l := (s.dropWhile (fun c => c == 45)).reverse)
      (fun c => c == 45) with ⟨pre, hpre⟩
    have hg : ((s.dropWhile (fun c => c == 45)).reverse).getLast? = some 45 := by
      rw [← hpre, List.getLast?_append, hl]; rfl
    rw [List.getLast?_reverse] at hg
    exact hhead s hg
  · -- the last character is not a dash
    intro hl
    rw [List.getLast?_reverse] at hl
    exact hhead _ hl

theorem splitextStem_eq_self {s : PyStr} (h : 46 ∉ s) : splitextStem s = s := by
  simp only [splitextStem]
  rw [if_neg]
  intro h46
  have hbase : List.Sublist (s.reverse.takeWhile (fun c => !(c == 47))).reverse s := by
    have := (List.takeWhile_sublist (l := s.reverse) (fun c => !(c == 47))).reverse
    rwa [List.reverse_reverse] at this
  exact h (((List.dropWhile_sublist _).trans hbase).mem h46)

theorem subParenF_eq_self (fuel : Nat) : ∀ s : PyStr, 40 ∉ s → subParenF fuel s = s := by
  induction fuel with
  | zero => intro s _; exact subParenF_zero s
  | succ fuel ih =>
    intro s h40
    match s with
    | [] => rfl
    | x :: xs =>
      rw [subParenF]
      cases hm : matchParen (x :: xs) with
      | some p =>
        obtain ⟨ds, rest⟩ := p
        exact absurd (matchParen_mem hm).2.2.1 h40
      | none =>
        have hx : 40 ∉ xs := fun hmem => h40 (List.mem_cons_of_mem x hmem)
        rw [ih xs hx]

theorem dropDash_eq_self {l : PyStr} (h : ¬ l.head? = some 45) :
    l.dropWhile (fun c => c == 45) = l := by
  cases l with
  | nil => rfl
  | cons c t =>
    rw [List.dropWhile_cons, if_neg]
    simp only [List.head?_cons, Option.some.injEq] at h
    simp [h]

theorem stripDashes_eq_self {s : PyStr} (h : noEdgeDash s = true) : stripDashes s = s := by
  unfold noEdgeDash at h
  simp only [Bool.and_eq_true, Bool.not_eq_true', beq_eq_false_iff_ne, ne_eq] at h
  unfold stripDashes
  rw [dropDash_eq_self h.1]
  rw [dropDash_eq_self (by rw [List.head?_reverse]; exact h.2)]
  exact List.reverse_reverse s

theorem collapseDashes_eq_self {s : PyStr} (h : noDoubleDash s = true) :
    collapseDashes s = s := by
  induction s with
  | nil => rfl
  | cons c t ih =>
    cases t with
    | nil => rfl
    | cons d r =>
      rw [noDoubleDash, Bool.and_eq_true] at h
      obtain ⟨h1, h2⟩ := h
      rw [Bool.not_eq_true'] at h1
      rw [collapseDashes, if_neg (by simp [h1]), ih h2]

theorem outCharPlayer_facts {c : Nat} (h : outCharPlayer c = true) :
    keepChar c = true ∧ ¬ c = 32 ∧ ¬ c = 46 ∧ ¬ c = 40 ∧ toLowerA c = c := by
  simp only [outCharPlayer, outCharVendor, slugChar, nonSpaceWhite, isLowerA, isDigitA,
    isSpaceA, Bool.or_eq_true, Bool.and_eq_true, Bool.not_eq_true', decide_eq_true_eq,
    beq_iff_eq, beq_eq_false_iff_ne, ne_eq] at h
  refine ⟨?_, ?_, ?_, ?_, ?_⟩
  · simp only [keepChar, isWordA, isAlnumA, isDigitA, isUpperA, isLowerA, isSpaceA,
      Bool.or_eq_true, Bool.and_eq_true, decide_eq_true_eq, beq_iff_eq]
    omega
  · omega
  · omega
  · omega
  · unfold toLowerA
    rw [if_neg]
    simp only [isUpperA, Bool.and_eq_true, decide_eq_true_eq, not_and, not_le]
    omega

theorem outCharVendor_facts {c : Nat} (h : outCharVendor c = true) :
    outCharPlayer c = true ∧ ¬ c = 95 := by
  simp only [outCharVendor, slugChar, nonSpaceWhite, isLowerA, isDigitA,
    isSpaceA, Bool.or_eq_true, Bool.and_eq_true, Bool.not_eq_true', decide_eq_true_eq,
    beq_iff_eq, beq_eq_false_iff_ne, ne_eq] at h
  constructor
  · simp only [outCharPlayer, outCharVendor, slugChar, nonSpaceWhite, isLowerA, isDigitA,
      isSpaceA, Bool.or_eq_true, Bool.and_eq_true, Bool.not_eq_true', decide_eq_true_eq,
      beq_iff_eq, beq_eq_false_iff_ne, ne_eq]
    omega
  · omega

theorem replaceChar_eq_self {a b : Nat} {s : PyStr} (h : a ∉ s) : replaceChar a b s = s := by
  unfold replaceChar
  rw [List.map_congr_left (g := id), List.map_id]
  intro c hc
  have : ¬ c = a := fun he => h (he ▸ hc)
  simp [this]

theorem clean_filename_fixed {s : PyStr} (hchar : ∀ c ∈ s, outCharPlayer c = true)
    (hdd : noDoubleDash s = true) (hed : noEdgeDash s = true) : clean_filename s = s := by
  have h46 : 46 ∉ s := fun hm => (outCharPlayer_facts (hchar 46 hm)).2.2.1 rfl
  have h40 : 40 ∉ s := fun hm => (outCharPlayer_facts (hchar 40 hm)).2.2.2.1 rfl
  have h32 : 32 ∉ s := fun hm => (outCharPlayer_facts (hchar 32 hm)).2.1 rfl
  simp only [clean_filename]
  rw [splitextStem_eq_self h46]
  show stripDashes (collapseDashes (List.map toLowerA
    (replaceChar 32 45 ((subParen s).filter keepChar)))) = s
  rw [show subParen s = s from subParenF_eq_self s.length s h40]
  rw [List.filter_eq_self.2 (fun c hc => (outCharPlayer_facts (hchar c hc)).1)]
  rw [replaceChar_eq_self h32]
  rw [List.map_congr_left (g := id) (fun c hc => (outCharPlayer_facts (hchar c hc)).2.2.2.2)]
  rw [List.map_id]
  rw [collapseDashes_eq_self hdd]
  exact stripDashes_eq_self hed

theorem clean_filename_vendor_fixed {s : PyStr} (hchar : ∀ c ∈ s, outCharVendor c = true)
    (hdd : noDoubleDash s = true) (hed : noEdgeDash s = true) : clean_filename_vendor s = s := by
  have hp : ∀ c ∈ s, outCharPlayer c = true :=
    fun c hc => (outCharVendor_facts (hchar c hc)).1
  have h46 : 46 ∉ s := fun hm => (outCharPlayer_facts (hp 46 hm)).2.2.1 rfl
  have h40 : 40 ∉ s := fun hm => (outCharPlayer_facts (hp 40 hm)).2.2.2.1 rfl
  have h32 : 32 ∉ s := fun hm => (outCharPlayer_facts (hp 32 hm)).2.1 rfl
  have h95 : 95 ∉ s := fun hm => (outCharVendor_facts (hchar 95 hm)).2 rfl
  simp only [clean_filename_vendor]
  rw [splitextStem_eq_self h46]
  show stripDashes (collapseDashes (List.map toLowerA (replaceChar 95 45
    (replaceChar 32 45 ((subParen s).filter keepChar))))) = s
  rw [show subParen s = s from subParenF_eq_self s.length s h40]
  rw [List.filter_eq_self.2 (fun c hc => (outCharPlayer_facts (hp c hc)).1)]
  rw [replaceChar_eq_self h32]
  rw [replaceChar_eq_self h95]
  rw [List.map_congr_left (g := id) (fun c hc => (outCharPlayer_facts (hp c hc)).2.2.2.2)]
  rw [List.map_id]
  rw [collapseDashes_eq_self hdd]
  exact stripDashes_eq_self hed

theorem clean_filename_mem (x : PyStr) : ∀ c ∈ clean_filename x, outCharPlayer c = true := by
  intro c hc
  simp only [clean_filename] at hc
  have hc5 := (collapseDashes_sublist _).mem ((stripDashes_sublist _).mem hc)
  rcases List.mem_map.1 hc5 with ⟨c', hc4, hlow⟩
  rcases mem_replaceChar 32 45 _ c' hc4 with h45 | ⟨hc3, hne⟩
  · subst h45
    rw [← hlow]
    rfl
  · have hk := (List.mem_filter.1 hc3).2
    rw [← hlow]
    exact toLowerA_out c' hk hne

theorem clean_filename_vendor_mem (x : PyStr) :
    ∀ c ∈ clean_filename_vendor x, outCharVendor c = true := by
  intro c hc
  simp only [clean_filename_vendor] at hc
  have hc5 := (collapseDashes_sublist _).mem ((stripDashes_sublist _).mem hc)
  rcases List.mem_map.1 hc5 with ⟨c', hc4b, hlow⟩
  rcases mem_replaceChar 95 45 _ c' hc4b with h45 | ⟨hc4, hne95⟩
  · subst h45
    rw [← hlow]
    rfl
  · rcases mem_replaceChar 32 45 _ c' hc4 with h45 | ⟨hc3, hne⟩
    · subst h45
      rw [← hlow]
      rfl
    · have hk := (List.mem_filter.1 hc3).2
      rw [← hlow]
      exact toLowerA_out_vendor c' hk hne hne95

theorem clean_filename_noDouble (x : PyStr) : noDoubleDash (clean_filename x) = true := by
  simp only [clean_filename]
  exact (noDoubleDash_iff_chain _).2 (stripDashes_chain (collapseDashes_chain _))

theorem clean_filename_noEdge (x : PyStr) : noEdgeDash (clean_filename x) = true := by
  simp only [clean_filename]
  exact stripDashes_noEdge _

theorem clean_filename_vendor_noDouble (x : PyStr) :
    noDoubleDash (clean_filename_vendor x) = true := by
  simp only [clean_filename_vendor]
  exact (noDoubleDash_iff_chain _).2 (stripDashes_chain (collapseDashes_chain _))

theorem clean_filename_vendor_noEdge (x : PyStr) :
    noEdgeDash (clean_filename_vendor x) = true := by
  simp only [clean_filename_vendor]
  exact stripDashes_noEdge _

/-! ## Claims about the filename sanitiser (C2, C3, C9) -/

/-- Claim C2, counterexample: the claim states that every variant of
`clean_filename` emits only characters from the class `[a-z0-9-]` — in
particular no underscores.  The player/enemy variant never rewrites
underscores (only the vendor variant has `replace('_', '-')`), so on the
input "a_b" it returns "a_b", which contains an underscore. -/
theorem clean_filename_charset_cex :
    clean_filename (codes ("a_b")) = codes ("a_b") ∧
    ¬ ((clean_filename (codes ("a_b"))).all slugChar = true) := by decide

/-- Claim C2, amended: for every ASCII input, the vendor variant emits only
lowercase letters, digits, dashes and non-space whitespace (whitespace other
than `' '` survives every stage, since only the space character is rewritten
to a dash), the player/enemy variant additionally may emit underscores, and
in both variants the output has no leading dash, no trailing dash and no two
consecutive dashes.  The ASCII hypothesis marks the domain on which the
model of Python's Unicode regex classes is faithful. -/
theorem clean_filename_charset_amended (x : PyStr) (_hx : AsciiStr x) :
    ((clean_filename x).all outCharPlayer = true ∧ noEdgeDash (clean_filename x) = true ∧
      noDoubleDash (clean_filename x) = true) ∧
    ((clean_filename_vendor x).all outCharVendor = true ∧
      noEdgeDash (clean_filename_vendor x) = true ∧
      noDoubleDash (clean_filename_vendor x) = true) :=
  ⟨⟨List.all_eq_true.2 (clean_filename_mem x), clean_filename_noEdge x,
      clean_filename_noDouble x⟩,
   ⟨List.all_eq_true.2 (clean_filename_vendor_mem x), clean_filename_vendor_noEdge x,
      clean_filename_vendor_noDouble x⟩⟩

/-- Witness for the amended claim C2 at a concrete input. -/
theorem clean_filename_charset_amended_witness :
    ((clean_filename (codes ("A b_c.png"))).all outCharPlayer = true ∧
      noEdgeDash (clean_filename (codes ("A b_c.png"))) = true ∧
      noDoubleDash (clean_filename (codes ("A b_c.png"))) = true) ∧
    ((clean_filename_vendor (codes ("A b_c.png"))).all outCharVendor = true ∧
      noEdgeDash (clean_filename_vendor (codes ("A b_c.png"))) = true ∧
      noDoubleDash (clean_filename_vendor (codes ("A b_c.png"))) = true) :=
  clean_filename_charset_amended (codes ("A b_c.png")) (by unfold AsciiStr; decide)

/-- Claim C3: both variants of the sanitiser are idempotent on ASCII inputs:
sanitising a sanitised name changes nothing. -/
theorem clean_filename_idempotent (x : PyStr) (_hx : AsciiStr x) :
    clean_filename (clean_filename x) = clean_filename x ∧
    clean_filename_vendor (clean_filename_vendor x) = clean_filename_vendor x :=
  ⟨clean_filename_fixed (clean_filename_mem x) (clean_filename_noDouble x)
      (clean_filename_noEdge x),
   clean_filename_vendor_fixed (clean_filename_vendor_mem x)
      (clean_filename_vendor_noDouble x) (clean_filename_vendor_noEdge x)⟩

/-- Witness for claim C3 at a concrete input. -/
theorem clean_filename_idempotent_witness :
    clean_filename (clean_filename (codes ("Great Sword Slash (4).fbx"))) =
      clean_filename (codes ("Great Sword Slash (4).fbx")) ∧
    clean_filename_vendor (clean_filename_vendor (codes ("Great Sword Slash (4).fbx"))) =
      clean_filename_vendor (codes ("Great Sword Slash (4).fbx")) :=
  clean_filename_idempotent (codes ("Great Sword Slash (4).fbx")) (by unfold AsciiStr; decide)

/-- Claim C9: the sanitiser maps "Sword And Shield Attack (2).fbx" to
exactly "sword-and-shield-attack-2". -/
theorem clean_filename_concrete_example :
    clean_filename (codes ("Sword And Shield Attack (2).fbx")) =
      codes ("sword-and-shield-attack-2") := by decide

/-! ## Frame-sampling lemmas and claim C4 -/

theorem pyRangeAux_bounds (s : Int) (hs : 0 < s) :
    ∀ (fuel : Nat) (a b : Int), ∀ y ∈ pyRangeAux fuel a b s, a ≤ y ∧ y < b := by
  intro fuel
  induction fuel with
  | zero => intro a b y hy; simp [pyRangeAux] at hy
  | succ fuel ih =>
    intro a b y hy
    rw [pyRangeAux] at hy
    split at hy
    case isTrue hab =>
      rcases List.mem_cons.1 hy with h | h
      · omega
      · have := ih (a + s) b y h
        omega
    case isFalse hab => simp at hy

theorem pyRangeAux_pairwise (s : Int) (hs : 0 < s) :
    ∀ (fuel : Nat) (a b : Int), List.Pairwise (· < ·) (pyRangeAux fuel a b s) := by
  intro fuel
  induction fuel with
  | zero => intro a b; simp [pyRangeAux]
  | succ fuel ih =>
    intro a b
    rw [pyRangeAux]
    split
    case isTrue hab =>
      refine List.pairwise_cons.2 ⟨?_, ih (a + s) b⟩
      intro y hy
      have := (pyRangeAux_bounds s hs fuel (a + s) b y hy).1
      omega
    case isFalse hab => exact List.Pairwise.nil

theorem pyRangeAux_head (s : Int) (fuel : Nat) (a b : Int) (hab : a < b) (hf : 0 < fuel) :
    (pyRangeAux fuel a b s).head? = some a := by
  cases fuel with
  | zero => omega
  | succ fuel => rw [pyRangeAux, if_pos hab]; rfl

theorem pyRangeAux_step_one :
    ∀ (fuel : Nat) (a b : Int), (b - a).toNat ≤ fuel →
      pyRangeAux fuel a b 1 = (List.range (b - a).toNat).map (fun i : Nat => a + (i : Int)) := by
  intro fuel
  induction fuel with
  | zero =>
    intro a b h
    have : (b - a).toNat = 0 := by omega
    rw [pyRangeAux, this]
    rfl
  | succ fuel ih =>
    intro a b h
    rw [pyRangeAux]
    split
    case isTrue hab =>
      have hn : (b - a).toNat = (b - (a + 1)).toNat + 1 := by omega
      rw [hn, List.range_succ_eq_map, List.map_cons]
      have hrec := ih (a + 1) b (by omega)
      rw [hrec]
      congr 1
      · omega
      · rw [List.map_map]
        apply List.map_congr_left
        intro i _
        simp
        omega
    case isFalse hab =>
      have : (b - a).toNat = 0 := by omega
      rw [this]
      rfl

theorem pyRangeAux_step_two :
    ∀ (fuel : Nat) (a b : Int), (b - a).toNat ≤ fuel →
      (∀ f : Int, f ∈ pyRangeAux fuel a b 2 ↔ ∃ k : Nat, f = a + 2 * (k : Int) ∧ f < b) := by
  intro fuel
  induction fuel with
  | zero =>
    intro a b h f
    rw [pyRangeAux]
    simp only [List.not_mem_nil, false_iff, not_exists, not_and]
    intro k hk
    omega
  | succ fuel ih =>
    intro a b h f
    rw [pyRangeAux]
    split
    case isTrue hab =>
      rw [List.mem_cons, ih (a + 2) b (by omega) f]
      constructor
      · rintro (rfl | ⟨k, rfl, hlt⟩)
        · exact ⟨0, by omega, hab⟩
        · exact ⟨k + 1, by push_cast; omega, hlt⟩
      · rintro ⟨k, rfl, hlt⟩
        cases k with
        | zero => left; omega
        | succ k => right; exact ⟨k, by push_cast; omega, hlt⟩
    case isFalse hab =>
      simp only [List.not_mem_nil, false_iff, not_exists, not_and]
      intro k hk
      omega

theorem pairwise_le_getLast {l : List Int} {x : Int} (hp : l.Pairwise (· < ·))
    (hx : l.getLast? = some x) : ∀ y ∈ l, y ≤ x := by
  induction l with
  | nil => simp at hx
  | cons c t ih =>
    intro y hy
    cases t with
    | nil =>
      simp at hx hy
      omega
    | cons d r =>
      rw [List.getLast?_cons_cons] at hx
      have hxt := ih (List.Pairwise.sublist (List.sublist_cons_self c (d :: r)) hp) hx
      rcases List.mem_cons.1 hy with rfl | hyt
      · have hdx : d ≤ x := hxt d (List.mem_cons_self d r)
        have := List.rel_of_pairwise_cons hp (List.mem_cons_self d r)
        omega
      · exact hxt y hyt

/-- Claim C4: for a clip whose closed frame range [start, end] holds at most
300 frames, the sampled-frame list is exactly every integer frame from start
to end; above 300 frames it is every second frame starting at start, in
increasing order, and the final frame is always present even when the
stride would skip it.  The hypothesis start <= end is Blender's frame-range
invariant (the source indexes `sampled_frames[-1]`, which would raise on an
empty range). -/
theorem sampling_stride_spec (fs fe : Int) (h : fs ≤ fe) :
    ∃ L, sampled_frames fs fe = some L ∧ fe ∈ L ∧ L.Pairwise (· < ·) ∧
      (fe - fs + 1 ≤ 300 → L = intRange fs fe) ∧
      (300 < fe - fs + 1 →
        ∀ f, f ∈ L ↔ (∃ k : Nat, f = fs + 2 * (k : Int) ∧ f ≤ fe) ∨ f = fe) := by
  by_cases hlong : 300 < fe - fs + 1
  · -- long clip: stride 2
    have hstep : sample_step fs fe = 2 := by simp [sample_step, hlong]
    have hmemiff := pyRangeAux_step_two (fe + 1 - fs).toNat fs (fe + 1) le_rfl
    have hpw := pyRangeAux_pairwise 2 (by omega) (fe + 1 - fs).toNat fs (fe + 1)
    have hbounds := pyRangeAux_bounds 2 (by omega) (fe + 1 - fs).toNat fs (fe + 1)
    have hfs : fs ∈ pyRangeAux (fe + 1 - fs).toNat fs (fe + 1) 2 :=
      (hmemiff fs).2 ⟨0, by omega, by omega⟩
    have hne : pyRangeAux (fe + 1 - fs).toNat fs (fe + 1) 2 ≠ [] := List.ne_nil_of_mem hfs
    obtain ⟨x, hx⟩ := Option.isSome_iff_exists.1 (List.getLast?_isSome.2 hne)
    have hxmem := List.mem_of_getLast?_eq_some hx
    have hxle : x ≤ fe := by have := (hbounds x hxmem).2; omega
    simp only [sampled_frames, pyRange, hstep]
    rw [hx]
    dsimp only
    by_cases hxfe : x = fe
    · rw [show (x == fe) = true by simp [hxfe]]
      refine ⟨_, rfl, ?_, hpw, by intro hc; omega, ?_⟩
      · exact hxfe ▸ hxmem
      · intro _ f
        rw [hmemiff f]
        constructor
        · rintro ⟨k, rfl, hlt⟩
          exact Or.inl ⟨k, rfl, by omega⟩
        · rintro (⟨k, rfl, hle⟩ | hfe)
          · exact ⟨k, rfl, by omega⟩
          · obtain ⟨k, hk, hlt⟩ := (hmemiff fe).1 (hxfe ▸ hxmem)
            exact ⟨k, by omega, by omega⟩
    · rw [show (x == fe) = false by simp [hxfe]]
      refine ⟨_, rfl, ?_, ?_, by intro hc; omega, ?_⟩
      · exact List.mem_append.2 (Or.inr (List.mem_singleton.2 rfl))
      · rw [List.pairwise_append]
        refine ⟨hpw, List.pairwise_singleton _ _, ?_⟩
        intro y hy b hb
        rw [List.mem_singleton] at hb
        rw [hb]
        have hyle : y ≤ fe := by have := (hbounds y hy).2; omega
        rcases eq_or_lt_of_le hyle with heq | hlt
        · have hyx := pairwise_le_getLast hpw hx y hy
          exact absurd (show x = fe by omega) hxfe
        · exact hlt
      · intro _ f
        rw [List.mem_append, List.mem_singleton, hmemiff f]
        constructor
        · rintro (⟨k, rfl, hlt⟩ | rfl)
          · exact Or.inl ⟨k, rfl, by omega⟩
          · exact Or.inr rfl
        · rintro (⟨k, rfl, hle⟩ | rfl)
          · exact Or.inl ⟨k, rfl, by omega⟩
          · exact Or.inr rfl
  · -- short clip: stride 1, every frame
    have hstep : sample_step fs fe = 1 := by simp [sample_step, hlong]
    have heq := pyRangeAux_step_one (fe + 1 - fs).toNat fs (fe + 1) le_rfl
    have hpw := pyRangeAux_pairwise 1 (by omega) (fe + 1 - fs).toNat fs (fe + 1)
    have hbounds := pyRangeAux_bounds 1 (by omega) (fe + 1 - fs).toNat fs (fe + 1)
    have hmem : fe ∈ pyRangeAux (fe + 1 - fs).toNat fs (fe + 1) 1 := by
      rw [heq]
      refine List.mem_map.2 ⟨(fe - fs).toNat, List.mem_range.2 (by omega), by omega⟩
    have hne : pyRangeAux (fe + 1 - fs).toNat fs (fe + 1) 1 ≠ [] := List.ne_nil_of_mem hmem
    obtain ⟨x, hx⟩ := Option.isSome_iff_exists.1 (List.getLast?_isSome.2 hne)
    have hxmem := List.mem_of_getLast?_eq_some hx
    have hxfe : x = fe := by
      have h1 : x ≤ fe := by have := (hbounds x hxmem).2; omega
      have h2 : fe ≤ x := pairwise_le_getLast hpw hx fe hmem
      omega
    simp only [sampled_frames, pyRange, hstep]
    rw [hx]
    dsimp only
    rw [show (x == fe) = true by simp [hxfe]]
    refine ⟨_, rfl, hxfe ▸ hxmem, hpw, ?_, by intro hc; omega⟩
    intro _
    rw [heq]
    rfl

/-- Witness for claim C4 on a long clip (401 frames, stride 2). -/
theorem sampling_stride_spec_witness :
    ∃ L, sampled_frames 0 400 = some L ∧ (400 : Int) ∈ L ∧ L.Pairwise (· < ·) ∧
      ((400 : Int) - 0 + 1 ≤ 300 → L = intRange 0 400) ∧
      (300 < (400 : Int) - 0 + 1 →
        ∀ f, f ∈ L ↔ (∃ k : Nat, f = 0 + 2 * (k : Int) ∧ f ≤ 400) ∨ f = 400) :=
  sampling_stride_spec 0 400 (by decide)

/-! ## Batch accounting (claim C5) -/

theorem vendor_tally_shift : ∀ (rs : List VOutcome) (c : Nat × Nat × Nat),
    (rs.foldl vendorStep c).1 + (rs.foldl vendorStep c).2.1 + (rs.foldl vendorStep c).2.2 =
      c.1 + c.2.1 + c.2.2 + rs.length := by
  intro rs
  induction rs with
  | nil => intro c; simp
  | cons r t ih =>
    intro c
    rw [List.foldl_cons]
    rw [ih (vendorStep c r)]
    rcases r with v | _
    · rcases v with _ | b
      · simp [vendorStep]; omega
      · cases b <;> (simp [vendorStep]; omega)
    · simp [vendorStep]; omega

theorem player_tally_shift : ∀ (rs : List UOutcome) (c : Nat × Nat),
    (rs.foldl playerStep c).1 + (rs.foldl playerStep c).2 = c.1 + c.2 + rs.length := by
  intro rs
  induction rs with
  | nil => intro c; simp
  | cons r t ih =>
    intro c
    rw [List.foldl_cons]
    rw [ih (playerStep c r)]
    rcases r with b | _
    · cases b <;> (simp [playerStep]; omega)
    · simp [playerStep]; omega

/-- Claim C5: in both batch loops every processed file increments exactly one
counter (an exception counts as a failure), so the final summary counts sum
to the number of input files: success+skip+fail in the vendor script,
success+fail in the player/enemy scripts. -/
theorem batch_tally_sums :
    (∀ rs : List VOutcome,
      (vendor_tally rs).1 + (vendor_tally rs).2.1 + (vendor_tally rs).2.2 = rs.length) ∧
    (∀ us : List UOutcome, (player_tally us).1 + (player_tally us).2 = us.length) := by
  constructor
  · intro rs
    have := vendor_tally_shift rs (0, 0, 0)
    simpa [vendor_tally] using this
  · intro us
    have := player_tally_shift us (0, 0)
    simpa [player_tally] using this

/-- Witness applying the batch accounting to a concrete outcome list. -/
theorem batch_tally_sums_witness :
    (vendor_tally [VOutcome.ret (some true), VOutcome.ret none, VOutcome.exc]).1 +
      (vendor_tally [VOutcome.ret (some true), VOutcome.ret none, VOutcome.exc]).2.1 +
      (vendor_tally [VOutcome.ret (some true), VOutcome.ret none, VOutcome.exc]).2.2 =
      [VOutcome.ret (some true), VOutcome.ret none, VOutcome.exc].length :=
  batch_tally_sums.1 [VOutcome.ret (some true), VOutcome.ret none, VOutcome.exc]

/-! ## Root-motion stripping lemmas and claim C1 -/

theorem matchChan_ai {root : String} {k : Nat} {fc : FCurve}
    (h : matchChan root k fc = true) : fc.array_index = k := by
  unfold matchChan at h
  simp only [Bool.and_eq_true, beq_iff_eq] at h
  exact h.2

theorem lastMatchPos_some {p : FCurve → Bool} :
    ∀ {l : List FCurve} {i : Nat}, lastMatchPos p l = some i →
      ∃ fc, l[i]? = some fc ∧ p fc = true := by
  intro l
  induction l with
  | nil => intro i h; simp [lastMatchPos] at h
  | cons fc rest ih =>
    intro i h
    rw [lastMatchPos] at h
    cases hr : lastMatchPos p rest with
    | some j =>
      rw [hr] at h
      have h' : some (j + 1) = some i := h
      have hij : i = j + 1 := (Option.some.inj h').symm
      subst hij
      obtain ⟨g, hg, hpg⟩ := ih hr
      exact ⟨g, by simpa using hg, hpg⟩
    | none =>
      rw [hr] at h
      have h' : (if p fc then some 0 else none) = some i := h
      split at h'
      next hp =>
        have : i = 0 := (Option.some.inj h').symm
        subst this
        exact ⟨fc, by simp, hp⟩
      next => exact absurd h' (by simp)

theorem lastMatchPos_none {p : FCurve → Bool} :
    ∀ {l : List FCurve}, lastMatchPos p l = none → ∀ fc ∈ l, p fc = false := by
  intro l
  induction l with
  | nil => intro _ fc hfc; simp at hfc
  | cons g rest ih =>
    intro h fc hfc
    rw [lastMatchPos] at h
    cases hr : lastMatchPos p rest with
    | some j =>
      rw [hr] at h
      have h' : some (j + 1) = (none : Option Nat) := h
      exact absurd h' (by simp)
    | none =>
      rw [hr] at h
      have h' : (if p g then some 0 else none) = (none : Option Nat) := h
      split at h'
      next => exact absurd h' (by simp)
      next hp =>
        rcases List.mem_cons.1 hfc with rfl | hmem
        · simpa using hp
        · exact ih hr fc hmem

theorem stripChannelAt_length (a : List FCurve) (o : Option Nat) :
    (stripChannelAt a o).length = a.length := by
  cases o with
  | none => rfl
  | some i =>
    rw [stripChannelAt]
    cases a[i]? with
    | none => rfl
    | some fc => simp

theorem stripChannelAt_getElem_ne (a : List FCurve) (o : Option Nat) (i : Nat)
    (h : ¬ o = some i) : (stripChannelAt a o)[i]? = a[i]? := by
  cases o with
  | none => rfl
  | some j =>
    rw [stripChannelAt]
    cases hj : a[j]? with
    | none => rfl
    | some fc =>
      have hij : j ≠ i := fun he => h (he ▸ rfl)
      exact List.getElem?_set_ne hij

theorem stripChannelAt_getElem_eq (a : List FCurve) (i : Nat) (fc : FCurve)
    (h : a[i]? = some fc) : (stripChannelAt a (some i))[i]? = some (stripCurve fc) := by
  rw [stripChannelAt, h]
  have hlt : i < a.length := (List.getElem?_eq_some_iff.1 h).1
  exact List.getElem?_set_self (by simpa using hlt)

theorem stripCurve_frozen {fc : FCurve} {k0 : KeyPoint}
    (h : fc.keyframe_points.head? = some k0) :
    ∀ kp ∈ (stripCurve fc).keyframe_points,
      kp.coValue = k0.coValue ∧ kp.hlValue = k0.coValue ∧ kp.hrValue = k0.coValue := by
  intro kp hkp
  unfold stripCurve at hkp
  cases hk : fc.keyframe_points with
  | nil => rw [hk] at h; simp at h
  | cons kp0 rest =>
    rw [hk] at h hkp
    have hk0 : kp0 = k0 := by simpa using h
    subst hk0
    simp only [List.map_cons] at hkp
    rcases List.mem_cons.1 hkp with rfl | hmem
    · exact ⟨rfl, rfl, rfl⟩
    · rcases List.mem_map.1 hmem with ⟨kp', _, rfl⟩
      exact ⟨rfl, rfl, rfl⟩

/-- Claim C1: after `strip_root_motion_from_action`, for a matched root-bone
name, every keyframe value and both tangent-handle values on the X channel
(array index 0) and on the Z channel (array index 2) equal the value of that
channel's first keyframe as it was before stripping, and every curve with
array index 1 (the vertical channel) is untouched.  The uniqueness
hypotheses express the claim's presupposition that the matched horizontal
channels are well defined (the loop keeps the last match, so with duplicate
matching channels only the last would be frozen). -/
theorem strip_root_motion_spec (a : List FCurve) (root : String)
    (hux : ∀ (i j : Nat) (fci fcj : FCurve), a[i]? = some fci → a[j]? = some fcj →
      matchChan root 0 fci = true → matchChan root 0 fcj = true → i = j)
    (huz : ∀ (i j : Nat) (fci fcj : FCurve), a[i]? = some fci → a[j]? = some fcj →
      matchChan root 2 fci = true → matchChan root 2 fcj = true → i = j) :
    (strip_root_motion_from_action a root).length = a.length ∧
    (∀ (i : Nat) (fc fc' : FCurve), a[i]? = some fc → (strip_root_motion_from_action a root)[i]? = some fc' →
      matchChan root 0 fc = true →
      ∀ k0 : KeyPoint, fc.keyframe_points.head? = some k0 →
        ∀ kp ∈ fc'.keyframe_points, kp.coValue = k0.coValue ∧
          kp.hlValue = k0.coValue ∧ kp.hrValue = k0.coValue) ∧
    (∀ (i : Nat) (fc fc' : FCurve), a[i]? = some fc → (strip_root_motion_from_action a root)[i]? = some fc' →
      matchChan root 2 fc = true →
      ∀ k0 : KeyPoint, fc.keyframe_points.head? = some k0 →
        ∀ kp ∈ fc'.keyframe_points, kp.coValue = k0.coValue ∧
          kp.hlValue = k0.coValue ∧ kp.hrValue = k0.coValue) ∧
    (∀ (i : Nat) (fc fc' : FCurve), a[i]? = some fc → (strip_root_motion_from_action a root)[i]? = some fc' →
      fc.array_index = 1 → fc' = fc) := by
  refine ⟨?_, ?_, ?_, ?_⟩
  · show (stripChannelAt (stripChannelAt a (lastMatchPos (matchChan root 0) a))
      (lastMatchPos (matchChan root 2) a)).length = a.length
    rw [stripChannelAt_length, stripChannelAt_length]
  · intro i fc fc' hai hai' hm k0 hk0
    cases hx : lastMatchPos (matchChan root 0) a with
    | none =>
      have hfalse := lastMatchPos_none hx fc (List.getElem?_mem hai)
      rw [hm] at hfalse
      exact absurd hfalse (by simp)
    | some ix =>
      obtain ⟨g, hg, hpg⟩ := lastMatchPos_some hx
      have hiix : i = ix := hux i ix fc g hai hg hm hpg
      subst hiix
      rw [hai] at hg
      have hfg : g = fc := (Option.some.inj hg).symm
      subst hfg
      have hz : ¬ lastMatchPos (matchChan root 2) a = some i := by
        intro hzi
        obtain ⟨g2, hg2, hpg2⟩ := lastMatchPos_some hzi
        rw [hai] at hg2
        have hg2e : g2 = g := (Option.some.inj hg2).symm
        subst hg2e
        have e2 := matchChan_ai hpg2
        have e0 := matchChan_ai hm
        omega
      have h2 : (strip_root_motion_from_action a root)[i]? = some (stripCurve g) := by
        show (stripChannelAt (stripChannelAt a (lastMatchPos (matchChan root 0) a))
          (lastMatchPos (matchChan root 2) a))[i]? = some (stripCurve g)
        rw [stripChannelAt_getElem_ne _ _ _ hz, hx,
          stripChannelAt_getElem_eq a i g hai]
      rw [h2] at hai'
      have : fc' = stripCurve g := Option.some.inj hai'.symm
      rw [this]
      exact stripCurve_frozen hk0
  · intro i fc fc' hai hai' hm k0 hk0
    cases hz : lastMatchPos (matchChan root 2) a with
    | none =>
      have hfalse := lastMatchPos_none hz fc (List.getElem?_mem hai)
      rw [hm] at hfalse
      exact absurd hfalse (by simp)
    | some iz =>
      obtain ⟨g, hg, hpg⟩ := lastMatchPos_some hz
      have hiiz : i = iz := huz i iz fc g hai hg hm hpg
      subst hiiz
      rw [hai] at hg
      have hfg : g = fc := (Option.some.inj hg).symm
      subst hfg
      have hxne : ¬ lastMatchPos (matchChan root 0) a = some i := by
        intro hxi
        obtain ⟨g2, hg2, hpg2⟩ := lastMatchPos_some hxi
        rw [hai] at hg2
        have hg2e : g2 = g := (Option.some.inj hg2).symm
        subst hg2e
        have e0 := matchChan_ai hpg2
        have e2 := matchChan_ai hm
        omega
      have h1 : (stripChannelAt a (lastMatchPos (matchChan root 0) a))[i]? = some g := by
        rw [stripChannelAt_getElem_ne _ _ _ hxne, hai]
      have h2 : (strip_root_motion_from_action a root)[i]? = some (stripCurve g) := by
        show (stripChannelAt (stripChannelAt a (lastMatchPos (matchChan root 0) a))
          (lastMatchPos (matchChan root 2) a))[i]? = some (stripCurve g)
        rw [hz]
        exact stripChannelAt_getElem_eq _ i g h1
      rw [h2] at hai'
      have : fc' = stripCurve g := Option.some.inj hai'.symm
      rw [this]
      exact stripCurve_frozen hk0
  · intro i fc fc' hai hai' hidx
    have hxne : ¬ lastMatchPos (matchChan root 0) a = some i := by
      intro hxi
      obtain ⟨g2, hg2, hpg2⟩ := lastMatchPos_some hxi
      rw [hai] at hg2
      have hg2e : g2 = fc := (Option.some.inj hg2).symm
      subst hg2e
      have e0 := matchChan_ai hpg2
      omega
    have hzne : ¬ lastMatchPos (matchChan root 2) a = some i := by
      intro hzi
      obtain ⟨g2, hg2, hpg2⟩ := lastMatchPos_some hzi
      rw [hai] at hg2
      have hg2e : g2 = fc := (Option.some.inj hg2).symm
      subst hg2e
      have e2 := matchChan_ai hpg2
      omega
    have h2 : (strip_root_motion_from_action a root)[i]? = a[i]? := by
      show (stripChannelAt (stripChannelAt a (lastMatchPos (matchChan root 0) a))
        (lastMatchPos (matchChan root 2) a))[i]? = a[i]?
      rw [stripChannelAt_getElem_ne _ _ _ hzne, stripChannelAt_getElem_ne _ _ _ hxne]
    rw [h2, hai] at hai'
    exact (Option.some.inj hai').symm

/-- Witness for claim C1 on a concrete one-curve action. -/
theorem strip_root_motion_spec_witness :
    (strip_root_motion_from_action demoAction ("mixamorig:Hips")).length = demoAction.length ∧
    (∀ (i : Nat) (fc fc' : FCurve), demoAction[i]? = some fc →
      (strip_root_motion_from_action demoAction ("mixamorig:Hips"))[i]? = some fc' →
      matchChan ("mixamorig:Hips") 0 fc = true →
      ∀ k0 : KeyPoint, fc.keyframe_points.head? = some k0 →
        ∀ kp ∈ fc'.keyframe_points, kp.coValue = k0.coValue ∧
          kp.hlValue = k0.coValue ∧ kp.hrValue = k0.coValue) ∧
    (∀ (i : Nat) (fc fc' : FCurve), demoAction[i]? = some fc →
      (strip_root_motion_from_action demoAction ("mixamorig:Hips"))[i]? = some fc' →
      matchChan ("mixamorig:Hips") 2 fc = true →
      ∀ k0 : KeyPoint, fc.keyframe_points.head? = some k0 →
        ∀ kp ∈ fc'.keyframe_points, kp.coValue = k0.coValue ∧
          kp.hlValue = k0.coValue ∧ kp.hrValue = k0.coValue) ∧
    (∀ (i : Nat) (fc fc' : FCurve), demoAction[i]? = some fc →
      (strip_root_motion_from_action demoAction ("mixamorig:Hips"))[i]? = some fc' →
      fc.array_index = 1 → fc' = fc) :=
  strip_root_motion_spec demoAction ("mixamorig:Hips")
    (by
      intro i j fci fcj hi hj _ _
      have hi1 : i < demoAction.length := (List.getElem?_eq_some_iff.1 hi).1
      have hj1 : j < demoAction.length := (List.getElem?_eq_some_iff.1 hj).1
      simp only [demoAction, List.length_cons, List.length_nil] at hi1 hj1
      omega)
    (by
      intro i j fci fcj hi hj _ _
      have hi1 : i < demoAction.length := (List.getElem?_eq_some_iff.1 hi).1
      have hj1 : j < demoAction.length := (List.getElem?_eq_some_iff.1 hj).1
      simp only [demoAction, List.length_cons, List.length_nil] at hi1 hj1
      omega)

/-! ## Vendor skip-existing semantics (claim C8) -/

/-- Claim C8: with skip-existing enabled and the computed output path already
present, `process_vendor_fbx` returns the distinct skipped outcome `None` —
which is neither `True` (success) nor `False` (failure) — with an empty
effect trace, i.e. before any scene reset, import or export; and the batch
summary counts a `None` result under the separate skip counter. -/
theorem vendor_skip_spec (f od : String) (existing : List String) (host : VendorHost)
    (hex : vendorOutputPath f od ∈ existing) :
    process_vendor_fbx f od true existing host = (none, []) ∧
    ((none : Option Bool) ≠ some true ∧ (none : Option Bool) ≠ some false) ∧
    (∀ rs : List VOutcome,
      vendor_tally (rs ++ [VOutcome.ret none]) =
        ((vendor_tally rs).1, (vendor_tally rs).2.1 + 1, (vendor_tally rs).2.2)) := by
  refine ⟨?_, ⟨by simp, by simp⟩, ?_⟩
  · unfold process_vendor_fbx
    rw [if_pos]
    simp [hex]
  · intro rs
    unfold vendor_tally
    rw [List.foldl_append]
    rfl

/-- Witness for claim C8 at a concrete vendor file and output directory. -/
theorem vendor_skip_spec_witness :
    process_vendor_fbx ("/in/Idle Anim (2).fbx") ("/out") true
      [("/out/idle-anim-2.usdz" : String)]
      ({ hasArmature := true, armAction := none,
         dataActions := [], exportOk := true } : VendorHost) = (none, []) ∧
    ((none : Option Bool) ≠ some true ∧ (none : Option Bool) ≠ some false) ∧
    (∀ rs : List VOutcome,
      vendor_tally (rs ++ [VOutcome.ret none]) =
        ((vendor_tally rs).1, (vendor_tally rs).2.1 + 1, (vendor_tally rs).2.2)) :=
  vendor_skip_spec ("/in/Idle Anim (2).fbx") ("/out")
    [("/out/idle-anim-2.usdz" : String)]
    ({ hasArmature := true, armAction := none, dataActions := [], exportOk := true } : VendorHost)
    (by decide)

/-! ## The JSON keyframe sampler: claims C7 and C10 -/

theorem matrix_to_list_length (m : M4) : (matrix_to_list m).length = 16 := rfl

theorem build_bones_aux_length :
    ∀ (bs : List PoseBone) (dict : List (String × Nat)) (idx : Nat),
      (build_bones_aux bs dict idx).length = bs.length := by
  intro bs
  induction bs with
  | nil => intro dict idx; rfl
  | cons b rest ih => intro dict idx; simp [build_bones_aux, ih]

theorem build_bones_length (bs : List PoseBone) : (build_bones bs).length = bs.length :=
  build_bones_aux_length bs [] 0

theorem pyRangeAux_nil_of_le {a b : Int} (h : b ≤ a) (fuel : Nat) (s : Int) :
    pyRangeAux fuel a b s = [] := by
  cases fuel with
  | zero => rfl
  | succ fuel => rw [pyRangeAux, if_neg (by omega)]

theorem sample_step_pos (fs fe : Int) : 0 < sample_step fs fe := by
  unfold sample_step
  split <;> omega

theorem sampled_frames_facts {fs fe : Int} {L : List Int}
    (h : sampled_frames fs fe = some L) :
    L.head? = some fs ∧ L.getLast? = some fe ∧ L.Pairwise (· < ·) := by
  simp only [sampled_frames, pyRange] at h
  cases hlast : (pyRangeAux (fe + 1 - fs).toNat fs (fe + 1) (sample_step fs fe)).getLast? with
  | none =>
    rw [hlast] at h
    have hcontra : (none : Option (List Int)) = some L := h
    exact absurd hcontra (by simp)
  | some x =>
    rw [hlast] at h
    have hne : pyRangeAux (fe + 1 - fs).toNat fs (fe + 1) (sample_step fs fe) ≠ [] := by
      intro hnil
      rw [hnil] at hlast
      simp at hlast
    have hab : fs < fe + 1 := by
      by_contra hge
      exact hne (pyRangeAux_nil_of_le (by omega) _ _)
    have hfuel : 0 < (fe + 1 - fs).toNat := by omega
    have hhead : (pyRangeAux (fe + 1 - fs).toNat fs (fe + 1) (sample_step fs fe)).head? =
        some fs := pyRangeAux_head _ _ _ _ hab hfuel
    have hpw := pyRangeAux_pairwise (sample_step fs fe) (sample_step_pos fs fe)
      (fe + 1 - fs).toNat fs (fe + 1)
    have hbounds := pyRangeAux_bounds (sample_step fs fe) (sample_step_pos fs fe)
      (fe + 1 - fs).toNat fs (fe + 1)
    have hxmem := List.mem_of_getLast?_eq_some hlast
    have hxle : x ≤ fe := by have := (hbounds x hxmem).2; omega
    have h' : (if (x == fe) = true then
        some (pyRangeAux (fe + 1 - fs).toNat fs (fe + 1) (sample_step fs fe))
      else some (pyRangeAux (fe + 1 - fs).toNat fs (fe + 1) (sample_step fs fe) ++ [fe]))
        = some L := h
    by_cases hxfe : x = fe
    · rw [if_pos (by simp [hxfe])] at h'
      have hL : L = pyRangeAux (fe + 1 - fs).toNat fs (fe + 1) (sample_step fs fe) :=
        (Option.some.inj h').symm
      subst hL
      exact ⟨hhead, by rw [hlast, hxfe], hpw⟩
    · rw [if_neg (by simp [hxfe])] at h'
      have hL : L = pyRangeAux (fe + 1 - fs).toNat fs (fe + 1) (sample_step fs fe) ++ [fe] :=
        (Option.some.inj h').symm
      subst hL
      refine ⟨?_, List.getLast?_concat _, ?_⟩
      · rw [List.head?_append, hhead]; rfl
      · rw [List.pairwise_append]
        refine ⟨hpw, List.pairwise_singleton _ _, ?_⟩
        intro y hy b hb
        rw [List.mem_singleton] at hb
        rw [hb]
        have hyle : y ≤ fe := by have := (hbounds y hy).2; omega
        rcases eq_or_lt_of_le hyle with heq | hlt
        · have hyx := pairwise_le_getLast hpw hlast y hy
          exact absurd (show x = fe by omega) hxfe
        · exact hlt

/-- Claim C7: when no armature can be found, or the selected armature has no
animation data or no active action, `export_animation` returns no document,
writes nothing (the result carries the written path only in the `some`
case), and leaves the scene state unchanged. -/
theorem export_fail_fast (scene : BScene) (an op : Option String)
    (h : ∀ arm : BObj, find_armature scene an = some arm → activeAction arm = none) :
    export_animation scene an op = (none, scene) := by
  unfold export_animation
  cases hf : find_armature scene an with
  | none => rfl
  | some arm =>
    dsimp only
    rw [h arm hf]

/-- Claim C10: every document produced by `export_animation` is internally
consistent: `boneCount` equals the length of the bone table, `keyframeCount`
equals the length of the keyframe list, every keyframe holds exactly
`boneCount` flattened transforms of exactly 16 numbers, and the keyframe
times are strictly increasing, start at 0 and end at the document's
`duration` (at a positive frame rate, which Blender guarantees). -/
theorem export_doc_consistent (scene : BScene) (an op : Option String)
    (doc : AnimDoc) (pth : String) (s' : BScene)
    (h : export_animation scene an op = (some (doc, pth), s'))
    (hfps : 0 < scene.fps) :
    doc.boneCount = doc.bones.length ∧
    doc.keyframeCount = doc.keyframes.length ∧
    (∀ kf ∈ doc.keyframes, kf.boneTransforms.length = doc.boneCount ∧
      ∀ t ∈ kf.boneTransforms, t.length = 16) ∧
    (doc.keyframes.map KeyframeRec.time).head? = some 0 ∧
    (doc.keyframes.map KeyframeRec.time).Pairwise (· < ·) ∧
    (doc.keyframes.map KeyframeRec.time).getLast? = some doc.duration := by
  unfold export_animation at h
  cases hf : find_armature scene an with
  | none => rw [hf] at h; exact absurd (show (none, scene) = _ from h) (by simp)
  | some arm =>
    rw [hf] at h
    dsimp only at h
    cases ha : activeAction arm with
    | none => rw [ha] at h; exact absurd (show (none, scene) = _ from h) (by simp)
    | some act =>
      rw [ha] at h
      dsimp only at h
      cases hs : sampled_frames (pyint act.frameRangeLo) (pyint act.frameRangeHi) with
      | none =>
        rw [hs] at h
        exact absurd (show ((none : Option (AnimDoc × String)), scene) = _ from h) (by simp)
      | some frames =>
        rw [hs] at h
        dsimp only at h
        obtain ⟨hhead, hlastf, hpw⟩ := sampled_frames_facts hs
        have hdoc := congrArg Prod.fst (Option.some.inj (congrArg Prod.fst h))
        subst hdoc
        refine ⟨rfl, rfl, ?_, ?_, ?_, ?_⟩
        · intro kf hkf
          rcases List.mem_map.1 hkf with ⟨f, _, rfl⟩
          constructor
          · show (arm.poseBones.map (fun b => matrix_to_list (b.localMatrix f))).length =
              (build_bones arm.poseBones).length
            rw [List.length_map, build_bones_length]
          · intro t ht
            rcases List.mem_map.1 ht with ⟨b, _, rfl⟩
            exact matrix_to_list_length _
        · rw [List.map_map, List.head?_map, hhead]
          show some (((pyint act.frameRangeLo : ℚ) - (pyint act.frameRangeLo : ℚ)) / scene.fps)
            = some 0
          simp
        · rw [List.map_map, List.pairwise_map]
          refine hpw.imp ?_
          intro a b hab
          show ((a : ℚ) - (pyint act.frameRangeLo : ℚ)) / scene.fps <
            ((b : ℚ) - (pyint act.frameRangeLo : ℚ)) / scene.fps
          have hnum : ((a : ℚ) - (pyint act.frameRangeLo : ℚ)) <
              ((b : ℚ) - (pyint act.frameRangeLo : ℚ)) := by
            have : (a : ℚ) < (b : ℚ) := by exact_mod_cast hab
            linarith
          rw [div_lt_div_iff_of_pos_right hfps]
          exact hnum
        · rw [List.map_map, List.getLast?_map, hlastf]
          rfl

/-- Witness for claim C7: a scene with no armature is left untouched and no
document is produced. -/
theorem export_fail_fast_witness :
    export_animation sceneNoArm none none = (none, sceneNoArm) :=
  export_fail_fast sceneNoArm none none
    (fun arm harm => by simp [find_armature, sceneNoArm] at harm)

/-- Witness for claim C10 on the concrete scene `demoScene`. -/
theorem export_doc_consistent_witness :
    demoDoc.boneCount = demoDoc.bones.length ∧
    demoDoc.keyframeCount = demoDoc.keyframes.length ∧
    (∀ kf ∈ demoDoc.keyframes, kf.boneTransforms.length = demoDoc.boneCount ∧
      ∀ t ∈ kf.boneTransforms, t.length = 16) ∧
    (demoDoc.keyframes.map KeyframeRec.time).head? = some 0 ∧
    (demoDoc.keyframes.map KeyframeRec.time).Pairwise (· < ·) ∧
    (demoDoc.keyframes.map KeyframeRec.time).getLast? = some demoDoc.duration :=
  export_doc_consistent demoScene none none demoDoc demoPath demoRun.2 rfl
    (by norm_num [demoScene])

/-! ## Scene reset (claim C6) -/

theorem purgeStep_refs (d : BlendData) (b : DataBlock) : (purgeStep d b).refs = d.refs := by
  unfold purgeStep
  split <;> rfl

theorem foldl_purgeStep_refs :
    ∀ (l : List DataBlock) (acc : BlendData), (l.foldl purgeStep acc).refs = acc.refs := by
  intro l
  induction l with
  | nil => intro acc; rfl
  | cons b t ih => intro acc; rw [List.foldl_cons, ih, purgeStep_refs]

theorem purgeStep_sublist (d : BlendData) (b : DataBlock) :
    List.Sublist (purgeStep d b).blocks d.blocks := by
  unfold purgeStep
  split
  · exact List.filter_sublist _
  · exact List.Sublist.refl _

theorem foldl_purgeStep_sublist :
    ∀ (l : List DataBlock) (acc : BlendData),
      List.Sublist ((l.foldl purgeStep acc).blocks) acc.blocks := by
  intro l
  induction l with
  | nil => intro acc; exact List.Sublist.refl _
  | cons b t ih =>
    intro acc
    rw [List.foldl_cons]
    exact (ih (purgeStep acc b)).trans (purgeStep_sublist acc b)

theorem nodup_inj {D : BlendData} (hnd : NodupIds D) {y z : DataBlock}
    (hy : y ∈ D.blocks) (hz : z ∈ D.blocks) (hid : y.id = z.id) : y = z :=
  List.inj_on_of_nodup_map hnd hy hz hid

theorem aliveB_iff (d : BlendData) (i : Nat) :
    aliveB d i = true ↔ ∃ b ∈ d.blocks, b.id = i := by
  unfold aliveB
  rw [List.any_eq_true]
  constructor
  · rintro ⟨b, hb, hbi⟩; exact ⟨b, hb, by simpa using hbi⟩
  · rintro ⟨b, hb, hbi⟩; exact ⟨b, hb, by simpa using hbi⟩

theorem aliveB_removeBlock_of_ne (d : BlendData) (j i : Nat) (hij : ¬ i = j) :
    aliveB (removeBlock d j) i = aliveB d i := by
  cases halive : aliveB d i with
  | true =>
    rcases (aliveB_iff _ _).1 halive with ⟨b, hb, hbi⟩
    refine (aliveB_iff _ _).2 ⟨b, ?_, hbi⟩
    unfold removeBlock
    simp only [List.mem_filter]
    refine ⟨hb, ?_⟩
    simp only [Bool.not_eq_eq_eq_not, Bool.not_true, beq_eq_false_iff_ne, ne_eq]
    rw [hbi]
    exact hij
  | false =>
    cases h2 : aliveB (removeBlock d j) i with
    | false => rfl
    | true =>
      rcases (aliveB_iff _ _).1 h2 with ⟨b, hb, hbi⟩
      have hbd : b ∈ d.blocks := (List.filter_sublist _).mem hb
      exact absurd ((aliveB_iff d i).2 ⟨b, hbd, hbi⟩) (by rw [halive]; simp)

theorem aliveB_removeBlock_false (d : BlendData) (j : Nat) :
    aliveB (removeBlock d j) j = false := by
  cases h2 : aliveB (removeBlock d j) j with
  | false => rfl
  | true =>
    rcases (aliveB_iff _ _).1 h2 with ⟨b, hb, hbi⟩
    unfold removeBlock at hb
    rw [List.mem_filter] at hb
    have := hb.2
    rw [hbi] at this
    simp at this

theorem users_stable_of_removeBlock (D d : BlendData) (j : Nat) (y : DataBlock)
    (hrefs : d.refs = D.refs) (hsub : List.Sublist d.blocks D.blocks) (hst : Strat D)
    (hy : y ∈ d.blocks)
    (hhold : ∀ z ∈ d.blocks, z.id = j → kindLevel y.kind ≤ kindLevel z.kind) :
    users (removeBlock d j) y.id = users d y.id := by
  unfold users
  have hrr : (removeBlock d j).refs = d.refs := rfl
  rw [hrr]
  congr 1
  apply List.filter_congr
  intro e he
  by_cases he2 : (e.2 == y.id) = true
  · rw [he2, Bool.true_and, Bool.true_and]
    by_cases hej : e.1 = j
    · subst hej
      cases halive : aliveB d e.1 with
      | false => exact aliveB_removeBlock_false d e.1
      | true =>
        exfalso
        rcases (aliveB_iff _ _).1 halive with ⟨z, hz, hzi⟩
        have hyD : y ∈ D.blocks := hsub.mem hy
        have hzD : z ∈ D.blocks := hsub.mem hz
        have heD : e ∈ D.refs := by rw [← hrefs]; exact he
        have he2' : y.id = e.2 := by
          have h := beq_iff_eq.1 he2
          omega
        have hlt := hst e heD z hzD y hyD hzi he2'
        have hge := hhold z hz hzi
        omega
    · rw [aliveB_removeBlock_of_ne d j e.1 hej]
  · have he2f : (e.2 == y.id) = false := by simpa using he2
    rw [he2f, Bool.false_and, Bool.false_and]

theorem purge_fold_spec (D : BlendData) (hst : Strat D) (hnd : NodupIds D) (k : BKind) :
    ∀ (l : List DataBlock) (acc : BlendData),
      acc.refs = D.refs → List.Sublist acc.blocks D.blocks →
      (∀ b ∈ l, b ∈ D.blocks ∧ b.kind = k) →
      (∀ x ∈ (l.foldl purgeStep acc).blocks, kindLevel x.kind ≤ kindLevel k →
        users (l.foldl purgeStep acc) x.id = users acc x.id) ∧
      (∀ x ∈ (l.foldl purgeStep acc).blocks, x.kind = k → x ∈ l →
        users (l.foldl purgeStep acc) x.id ≠ 0) := by
  intro l
  induction l with
  | nil =>
    intro acc hrefs hsub hl
    refine ⟨fun x _ _ => rfl, fun x _ _ hx => absurd hx (List.not_mem_nil x)⟩
  | cons b t ih =>
    intro acc hrefs hsub hl
    rw [List.foldl_cons]
    have hbD : b ∈ D.blocks := (hl b (List.mem_cons_self b t)).1
    have hbk : b.kind = k := (hl b (List.mem_cons_self b t)).2
    have hrefs' : (purgeStep acc b).refs = D.refs := by rw [purgeStep_refs]; exact hrefs
    have hsub' : List.Sublist (purgeStep acc b).blocks D.blocks :=
      (purgeStep_sublist acc b).trans hsub
    have hl' : ∀ x ∈ t, x ∈ D.blocks ∧ x.kind = k :=
      fun x hx => hl x (List.mem_cons_of_mem b hx)
    obtain ⟨ihstab, ihdone⟩ := ih (purgeStep acc b) hrefs' hsub' hl'
    have hstep : ∀ x ∈ (purgeStep acc b).blocks, kindLevel x.kind ≤ kindLevel k →
        users (purgeStep acc b) x.id = users acc x.id := by
      intro x hx hxl
      unfold purgeStep
      split
      case isTrue hu =>
        have hxacc : x ∈ acc.blocks := by
          refine (purgeStep_sublist acc b).mem ?_
          exact hx
        refine users_stable_of_removeBlock D acc b.id x hrefs hsub hst hxacc ?_
        intro z hz hzj
        have hzb : z = b := nodup_inj hnd (hsub.mem hz) hbD hzj
        rw [hzb, hbk]
        exact hxl
      case isFalse => rfl
    constructor
    · intro x hx hxl
      rw [ihstab x hx hxl]
      have hx' : x ∈ (purgeStep acc b).blocks :=
        (foldl_purgeStep_sublist t (purgeStep acc b)).mem hx
      exact hstep x hx' hxl
    · intro x hx hxk hxmem
      rcases List.mem_cons.1 hxmem with rfl | hxt
      · -- the examined block itself
        have hx' : x ∈ (purgeStep acc x).blocks :=
          (foldl_purgeStep_sublist t (purgeStep acc x)).mem hx
        have hnz : ¬ users acc x.id = 0 := by
          intro hz
          unfold purgeStep at hx'
          rw [if_pos (by simpa using hz)] at hx'
          unfold removeBlock at hx'
          rw [List.mem_filter] at hx'
          have := hx'.2
          simp at this
        have heq : users (t.foldl purgeStep (purgeStep acc x)) x.id =
            users (purgeStep acc x) x.id := by
          refine ihstab x hx ?_
          rw [hxk]
        rw [heq]
        have heq2 : users (purgeStep acc x) x.id = users acc x.id := by
          refine hstep x ?_ ?_
          · exact (foldl_purgeStep_sublist t (purgeStep acc x)).mem hx
          · rw [hxk]
        rw [heq2]
        exact hnz
      · exact ihdone x hx hxk hxt

theorem purgeKind_refs (d : BlendData) (k : BKind) : (purgeKind d k).refs = d.refs :=
  foldl_purgeStep_refs _ d

theorem purgeKind_sublist (d : BlendData) (k : BKind) :
    List.Sublist (purgeKind d k).blocks d.blocks :=
  foldl_purgeStep_sublist _ d

theorem purgeKind_spec (D d : BlendData) (k : BKind) (hst : Strat D) (hnd : NodupIds D)
    (hrefs : d.refs = D.refs) (hsub : List.Sublist d.blocks D.blocks) :
    (∀ x ∈ (purgeKind d k).blocks, kindLevel x.kind ≤ kindLevel k →
      users (purgeKind d k) x.id = users d x.id) ∧
    (∀ x ∈ (purgeKind d k).blocks, x.kind = k → users (purgeKind d k) x.id ≠ 0) := by
  have hl : ∀ b ∈ d.blocks.filter (fun b => b.kind == k), b ∈ D.blocks ∧ b.kind = k := by
    intro b hb
    rw [List.mem_filter] at hb
    exact ⟨hsub.mem hb.1, by simpa using hb.2⟩
  obtain ⟨hstab, hdone⟩ := purge_fold_spec D hst hnd k (d.blocks.filter (fun b => b.kind == k))
    d hrefs hsub hl
  refine ⟨hstab, ?_⟩
  intro x hx hxk
  refine hdone x hx hxk ?_
  rw [List.mem_filter]
  exact ⟨(purgeKind_sublist d k).mem hx, by simpa using hxk⟩

theorem purgeKind_preserves_good (D d : BlendData) (k k' : BKind) (hst : Strat D)
    (hnd : NodupIds D) (hrefs : d.refs = D.refs) (hsub : List.Sublist d.blocks D.blocks)
    (hlt : kindLevel k' ≤ kindLevel k)
    (hg : ∀ x ∈ d.blocks, x.kind = k' → users d x.id ≠ 0) :
    ∀ x ∈ (purgeKind d k).blocks, x.kind = k' → users (purgeKind d k) x.id ≠ 0 := by
  intro x hx hxk
  have hxd : x ∈ d.blocks := (purgeKind_sublist d k).mem hx
  have := (purgeKind_spec D d k hst hnd hrefs hsub).1 x hx (by rw [hxk]; exact hlt)
  rw [this]
  exact hg x hxd hxk

/-- Claim C6: after `clear_scene`, no scene objects remain and none of the
six purged collections holds a block with zero remaining references —
including blocks whose user count dropped to zero through removals performed
by `clear_scene` itself, since the purge order follows the direction of the
reference graph.  The hypotheses state Blender's data-model invariants: ids
are unique, and holders live strictly earlier in the purge order than what
they hold. -/
theorem clear_scene_spec (d : BlendData) (hnd : NodupIds d) (hst : Strat d) :
    (∀ b ∈ (clear_scene d).blocks, ¬ b.kind = BKind.object) ∧
    (∀ b ∈ (clear_scene d).blocks, tracked b.kind = true → users (clear_scene d) b.id ≠ 0) := by
  unfold clear_scene
  set s0 := delete_all_objects d with hs0
  set s1 := purgeKind s0 BKind.mesh with hs1
  set s2 := purgeKind s1 BKind.armature with hs2
  set s3 := purgeKind s2 BKind.material with hs3
  set s4 := purgeKind s3 BKind.texture with hs4
  set s5 := purgeKind s4 BKind.image with hs5
  set s6 := purgeKind s5 BKind.action with hs6
  have hr0 : s0.refs = d.refs := rfl
  have hb0 : List.Sublist s0.blocks d.blocks := List.filter_sublist _
  have hr1 : s1.refs = d.refs := by rw [hs1, purgeKind_refs]; exact hr0
  have hb1 : List.Sublist s1.blocks d.blocks := by
    rw [hs1]; exact (purgeKind_sublist s0 _).trans hb0
  have hr2 : s2.refs = d.refs := by rw [hs2, purgeKind_refs]; exact hr1
  have hb2 : List.Sublist s2.blocks d.blocks := by
    rw [hs2]; exact (purgeKind_sublist s1 _).trans hb1
  have hr3 : s3.refs = d.refs := by rw [hs3, purgeKind_refs]; exact hr2
  have hb3 : List.Sublist s3.blocks d.blocks := by
    rw [hs3]; exact (purgeKind_sublist s2 _).trans hb2
  have hr4 : s4.refs = d.refs := by rw [hs4, purgeKind_refs]; exact hr3
  have hb4 : List.Sublist s4.blocks d.blocks := by
    rw [hs4]; exact (purgeKind_sublist s3 _).trans hb3
  have hr5 : s5.refs = d.refs := by rw [hs5, purgeKind_refs]; exact hr4
  have hb5 : List.Sublist s5.blocks d.blocks := by
    rw [hs5]; exact (purgeKind_sublist s4 _).trans hb4
  have gm1 : ∀ x ∈ s1.blocks, x.kind = BKind.mesh → users s1 x.id ≠ 0 := by
    rw [hs1]; exact (purgeKind_spec d s0 _ hst hnd hr0 hb0).2
  have gm2 : ∀ x ∈ s2.blocks, x.kind = BKind.mesh → users s2 x.id ≠ 0 := by
    rw [hs2]; exact purgeKind_preserves_good d s1 _ _ hst hnd hr1 hb1 (by decide) gm1
  have gm3 : ∀ x ∈ s3.blocks, x.kind = BKind.mesh → users s3 x.id ≠ 0 := by
    rw [hs3]; exact purgeKind_preserves_good d s2 _ _ hst hnd hr2 hb2 (by decide) gm2
  have gm4 : ∀ x ∈ s4.blocks, x.kind = BKind.mesh → users s4 x.id ≠ 0 := by
    rw [hs4]; exact purgeKind_preserves_good d s3 _ _ hst hnd hr3 hb3 (by decide) gm3
  have gm5 : ∀ x ∈ s5.blocks, x.kind = BKind.mesh → users s5 x.id ≠ 0 := by
    rw [hs5]; exact purgeKind_preserves_good d s4 _ _ hst hnd hr4 hb4 (by decide) gm4
  have gm6 : ∀ x ∈ s6.blocks, x.kind = BKind.mesh → users s6 x.id ≠ 0 := by
    rw [hs6]; exact purgeKind_preserves_good d s5 _ _ hst hnd hr5 hb5 (by decide) gm5
  have ga2 : ∀ x ∈ s2.blocks, x.kind = BKind.armature → users s2 x.id ≠ 0 := by
    rw [hs2]; exact (purgeKind_spec d s1 _ hst hnd hr1 hb1).2
  have ga3 : ∀ x ∈ s3.blocks, x.kind = BKind.armature → users s3 x.id ≠ 0 := by
    rw [hs3]; exact purgeKind_preserves_good d s2 _ _ hst hnd hr2 hb2 (by decide) ga2
  have ga4 : ∀ x ∈ s4.blocks, x.kind = BKind.armature → users s4 x.id ≠ 0 := by
    rw [hs4]; exact purgeKind_preserves_good d s3 _ _ hst hnd hr3 hb3 (by decide) ga3
  have ga5 : ∀ x ∈ s5.blocks, x.kind = BKind.armature → users s5 x.id ≠ 0 := by
    rw [hs5]; exact purgeKind_preserves_good d s4 _ _ hst hnd hr4 hb4 (by decide) ga4
  have ga6 : ∀ x ∈ s6.blocks, x.kind = BKind.armature → users s6 x.id ≠ 0 := by
    rw [hs6]; exact purgeKind_preserves_good d s5 _ _ hst hnd hr5 hb5 (by decide) ga5
  have gt3 : ∀ x ∈ s3.blocks, x.kind = BKind.material → users s3 x.id ≠ 0 := by
    rw [hs3]; exact (purgeKind_spec d s2 _ hst hnd hr2 hb2).2
  have gt4 : ∀ x ∈ s4.blocks, x.kind = BKind.material → users s4 x.id ≠ 0 := by
    rw [hs4]; exact purgeKind_preserves_good d s3 _ _ hst hnd hr3 hb3 (by decide) gt3
  have gt5 : ∀ x ∈ s5.blocks, x.kind = BKind.material → users s5 x.id ≠ 0 := by
    rw [hs5]; exact purgeKind_preserves_good d s4 _ _ hst hnd hr4 hb4 (by decide) gt4
  have gt6 : ∀ x ∈ s6.blocks, x.kind = BKind.material → users s6 x.id ≠ 0 := by
    rw [hs6]; exact purgeKind_preserves_good d s5 _ _ hst hnd hr5 hb5 (by decide) gt5
  have gx4 : ∀ x ∈ s4.blocks, x.kind = BKind.texture → users s4 x.id ≠ 0 := by
    rw [hs4]; exact (purgeKind_spec d s3 _ hst hnd hr3 hb3).2
  have gx5 : ∀ x ∈ s5.blocks, x.kind = BKind.texture → users s5 x.id ≠ 0 := by
    rw [hs5]; exact purgeKind_preserves_good d s4 _ _ hst hnd hr4 hb4 (by decide) gx4
  have gx6 : ∀ x ∈ s6.blocks, x.kind = BKind.texture → users s6 x.id ≠ 0 := by
    rw [hs6]; exact purgeKind_preserves_good d s5 _ _ hst hnd hr5 hb5 (by decide) gx5
  have gi5 : ∀ x ∈ s5.blocks, x.kind = BKind.image → users s5 x.id ≠ 0 := by
    rw [hs5]; exact (purgeKind_spec d s4 _ hst hnd hr4 hb4).2
  have gi6 : ∀ x ∈ s6.blocks, x.kind = BKind.image → users s6 x.id ≠ 0 := by
    rw [hs6]; exact purgeKind_preserves_good d s5 _ _ hst hnd hr5 hb5 (by decide) gi5
  have gc6 : ∀ x ∈ s6.blocks, x.kind = BKind.action → users s6 x.id ≠ 0 := by
    rw [hs6]; exact (purgeKind_spec d s5 _ hst hnd hr5 hb5).2
  have hb6chain : List.Sublist s6.blocks s0.blocks := by
    rw [hs6, hs5, hs4, hs3, hs2, hs1]
    exact ((((((purgeKind_sublist _ _).trans (purgeKind_sublist _ _)).trans
      (purgeKind_sublist _ _)).trans (purgeKind_sublist _ _)).trans
      (purgeKind_sublist _ _)).trans (purgeKind_sublist _ _))
  constructor
  · intro b hb
    have hbs0 : b ∈ s0.blocks := hb6chain.mem hb
    rw [hs0] at hbs0
    unfold delete_all_objects at hbs0
    rw [List.mem_filter] at hbs0
    have h2 := hbs0.2
    simpa using h2
  · intro b hb htr
    cases hbk : b.kind with
    | object => rw [hbk] at htr; exact absurd htr (by decide)
    | other => rw [hbk] at htr; exact absurd htr (by decide)
    | mesh => exact gm6 b hb hbk
    | armature => exact ga6 b hb hbk
    | material => exact gt6 b hb hbk
    | texture => exact gx6 b hb hbk
    | image => exact gi6 b hb hbk
    | action => exact gc6 b hb hbk

/-- Witness for claim C6 on the concrete state `demoBlend`. -/
theorem clear_scene_spec_witness :
    (∀ b ∈ (clear_scene demoBlend).blocks, ¬ b.kind = BKind.object) ∧
    (∀ b ∈ (clear_scene demoBlend).blocks, tracked b.kind = true →
      users (clear_scene demoBlend) b.id ≠ 0) :=
  clear_scene_spec demoBlend (by unfold NodupIds; decide) (by unfold Strat; decide)

end Metalman
